import Mathlib

/-!
Shallow embedding of `core/dutydb/memory.go` (package `dutydb`, the in-memory
DutyDB of the charon distributed validator).  Go maps become total functions
into `Option`, slices become lists, capacity-1 response channels become a
delivery log keyed by a fresh query id, and the single mutex becomes the fact
that every operation is one atomic state transition.  Hash-tree roots are
deterministic and collision-free on the modelled fields, so they are embedded
as injective encodings of those fields.
-/

namespace DutyDB

/-- Validator public key (`core.PubKey`, a string in Go), modelled as a `Nat`. -/
abbrev PubKey := Nat

/-- The beacon attestation data (`eth2p0.AttestationData`): its `Slot` field plus
the remaining fields (`Index`, roots, checkpoints) condensed into `body`. -/
structure AttDataInner where
  slot : Nat
  body : Nat
deriving DecidableEq, Repr

/-- The attester duty descriptor embedded in `core.AttestationData`
(`eth2v1.AttesterDuty`): the fields read by `memory.go`. -/
structure AttesterDuty where
  slot : Nat
  committeeIndex : Nat
  validatorIndex : Nat
deriving DecidableEq, Repr

/-- `core.AttestationData`: the beacon data together with its duty descriptor. -/
structure AttestationData where
  data : AttDataInner
  duty : AttesterDuty
deriving DecidableEq, Repr

/-- `eth2api.VersionedProposal` / `core.VersionedProposal`: its slot plus the
rest of the block condensed into `body`. -/
structure VersionedProposal where
  slot : Nat
  body : Nat
deriving DecidableEq, Repr

/-- `proposal.Root()`: the hash-tree root of the whole proposal.  The root is a
deterministic, collision-free digest of the proposal, so it is modelled as the
injective encoding of the modelled fields. -/
def VersionedProposal.root (p : VersionedProposal) : Nat × Nat :=
  (p.slot, p.body)

/-- `core.VersionedAggregatedAttestation`: `Data()` returns the attestation
data; the aggregation bits and signature are condensed into `aggBits`. -/
structure VersionedAggregatedAttestation where
  data : AttDataInner
  aggBits : Nat
deriving DecidableEq, Repr

/-- `attData.HashTreeRoot()` for `eth2p0.AttestationData`: deterministic and
collision-free on the modelled fields, so modelled as the data itself. -/
def htrAttData (d : AttDataInner) : AttDataInner := d

/-- `altair.SyncCommitteeContribution`: the fields read by `memory.go` plus the
aggregation payload condensed into `bits`. -/
structure SyncCommitteeContribution where
  slot : Nat
  subcommitteeIndex : Nat
  beaconBlockRoot : Nat
  bits : Nat
deriving DecidableEq, Repr

/-- `contrib.HashTreeRoot()`: deterministic and collision-free on the modelled
fields, so modelled as the contribution itself. -/
def SyncCommitteeContribution.htr (c : SyncCommitteeContribution) :
    SyncCommitteeContribution := c

/-- `core.UnsignedData`: the interface value held in an `UnsignedDataSet`.
The type casts in the Go store functions become constructor matches. -/
inductive UnsignedData
  | attestation (a : AttestationData)
  | proposal (p : VersionedProposal)
  | agg (a : VersionedAggregatedAttestation)
  | contrib (c : SyncCommitteeContribution)
deriving DecidableEq, Repr

/-- `core.DutyType`: the duty kinds dispatched on by `Store` and
`deleteDutyUnsafe`; `other` stands for every remaining enum value (hits the
`default` branch). -/
inductive DutyType
  | proposer
  | builderProposer
  | attester
  | aggregator
  | syncContribution
  | other
deriving DecidableEq, Repr

/-- `core.Duty`: a `(slot, type)` pair. -/
structure Duty where
  slot : Nat
  type : DutyType
deriving DecidableEq, Repr

/-- `attKey`: key of an attester value (`Slot`, `CommIdx`). -/
structure AttKey where
  slot : Nat
  commIdx : Nat
deriving DecidableEq, Repr

/-- `pkKey`: key of a pubkey-by-attestation entry (`Slot`, `CommIdx`, `ValIdx`). -/
structure PkKey where
  slot : Nat
  commIdx : Nat
  valIdx : Nat
deriving DecidableEq, Repr

/-- `aggKey`: key of an aggregated attestation (`Slot`, `Root`); the root is
the hash-tree root of the attestation data, embedded as `AttDataInner`. -/
structure AggKey where
  slot : Nat
  root : AttDataInner
deriving DecidableEq, Repr

/-- `contribKey`: key of a sync contribution (`Slot`, `SubcommIdx`, `Root`). -/
structure ContribKey where
  slot : Nat
  subcommIdx : Nat
  root : Nat
deriving DecidableEq, Repr

/-- A Go map, as a total function into `Option`. -/
def Map.insert {κ ν : Type} [DecidableEq κ] (m : κ → Option ν) (k : κ) (v : ν) :
    κ → Option ν :=
  fun x => if x = k then some v else m x

/-- `delete(m, k)` on a Go map. -/
def Map.erase {κ ν : Type} [DecidableEq κ] (m : κ → Option ν) (k : κ) :
    κ → Option ν :=
  fun x => if x = k then none else m x

/-- `m[s] = append(m[s], k)` on a Go map of slices (a missing key reads as the
empty slice, so the map is modelled as a total function into lists). -/
def appendAt {κ : Type} (m : Nat → List κ) (s : Nat) (k : κ) : Nat → List κ :=
  fun x => if x = s then m x ++ [k] else m x

/-- `delete(m, s)` on a Go map of slices: the entry reads as empty afterwards. -/
def clearAt {κ : Type} (m : Nat → List κ) (s : Nat) : Nat → List κ :=
  fun x => if x = s then [] else m x

/-- A waiting query (`attQuery` / `proQuery` / `aggQuery` / `contribQuery`,
which all share this shape): the lookup key, the identity of the caller's
capacity-1 response channel (a fresh `id`), and whether the caller's cancel
channel is closed. -/
structure Query (κ : Type) where
  id : Nat
  key : κ
  cancel : Bool
deriving DecidableEq, Repr

/-- The errors produced by `memory.go` (each constructor is one `errors.New` /
returned sentinel site). -/
inductive DBErr
  | expiredDuty
  | proposerSetTooLong
  | deprecatedDutyBuilderProposer
  | unsupportedDutyType
  | invalidUnsignedAttestationData
  | invalidUnsignedAggregatedAttestation
  | invalidUnsignedSyncContribution
  | invalidVersionedProposal
  | clashingPubKey (k : PkKey)
  | clashingAttestationData (k : AttKey)
  | clashingDataRoot
  | clashingSyncContributions
  | clashingBlocks
  | unknownDutyType
  | pubkeyNotFound
deriving DecidableEq, Repr

/-- `MemDB`: the full mutable state.  The four `...Deliveries` logs record
every write ever made to a response channel as a `(query id, value)` pair;
`nextQueryId` allocates channel identities; `shutdownClosed` is the state of
the `shutdown` channel. -/
structure MemDB where
  attDuties : AttKey → Option AttDataInner
  attPubKeys : PkKey → Option PubKey
  attKeysBySlot : Nat → List PkKey
  attQueries : List (Query AttKey)
  proDuties : Nat → Option VersionedProposal
  proQueries : List (Query Nat)
  aggDuties : AggKey → Option VersionedAggregatedAttestation
  aggKeysBySlot : Nat → List AggKey
  aggQueries : List (Query AggKey)
  contribDuties : ContribKey → Option SyncCommitteeContribution
  contribKeysBySlot : Nat → List ContribKey
  contribQueries : List (Query ContribKey)
  attDeliveries : List (Nat × AttDataInner)
  proDeliveries : List (Nat × VersionedProposal)
  aggDeliveries : List (Nat × VersionedAggregatedAttestation)
  contribDeliveries : List (Nat × SyncCommitteeContribution)
  nextQueryId : Nat
  shutdownClosed : Bool

/-- `NewMemDB`: all maps empty, no queries, shutdown channel open. -/
def initDB : MemDB where
  attDuties := fun _ => none
  attPubKeys := fun _ => none
  attKeysBySlot := fun _ => []
  attQueries := []
  proDuties := fun _ => none
  proQueries := []
  aggDuties := fun _ => none
  aggKeysBySlot := fun _ => []
  aggQueries := []
  contribDuties := fun _ => none
  contribKeysBySlot := fun _ => []
  contribQueries := []
  attDeliveries := []
  proDeliveries := []
  aggDeliveries := []
  contribDeliveries := []
  nextQueryId := 0
  shutdownClosed := false

/-- The resolver loop shared by `resolveAttQueriesUnsafe`,
`resolveProQueriesUnsafe`, `resolveAggQueriesUnsafe` and
`resolveContribQueriesUnsafe`: walk the query list; drop cancelled queries;
send the value (one non-blocking channel write, recorded as a log entry) to a
query whose key is present; keep the rest, in order, as unresolved. -/
def resolveList {κ ν : Type} (lookup : κ → Option ν) :
    List (Query κ) → List (Query κ) × List (Nat × ν)
  | [] => ([], [])
  | q :: rest =>
    if q.cancel then resolveList lookup rest
    else
      match lookup q.key with
      | none =>
        let r := resolveList lookup rest
        (q :: r.1, r.2)
      | some v =>
        let r := resolveList lookup rest
        (r.1, (q.id, v) :: r.2)

/-- `resolveProQueriesUnsafe`. -/
def resolveProQueries (db : MemDB) : MemDB :=
  let r := resolveList db.proDuties db.proQueries
  { db with proQueries := r.1, proDeliveries := db.proDeliveries ++ r.2 }

/-- `resolveAttQueriesUnsafe`. -/
def resolveAttQueries (db : MemDB) : MemDB :=
  let r := resolveList db.attDuties db.attQueries
  { db with attQueries := r.1, attDeliveries := db.attDeliveries ++ r.2 }

/-- `resolveAggQueriesUnsafe`. -/
def resolveAggQueries (db : MemDB) : MemDB :=
  let r := resolveList db.aggDuties db.aggQueries
  { db with aggQueries := r.1, aggDeliveries := db.aggDeliveries ++ r.2 }

/-- `resolveContribQueriesUnsafe`. -/
def resolveContribQueries (db : MemDB) : MemDB :=
  let r := resolveList db.contribDuties db.contribQueries
  { db with contribQueries := r.1,
            contribDeliveries := db.contribDeliveries ++ r.2 }

/-- One `if value, ok := db.attPubKeys[pKey]` block of `storeAttestationUnsafe`:
on a hit, a differing pubkey is a clash (`clashing public key`) and nothing is
written; on a miss the pubkey is inserted and the key appended to
`attKeysBySlot[attData.Duty.Slot]`. -/
def putAttPubKey (db : MemDB) (pKey : PkKey) (dutySlot : Nat) (pubkey : PubKey) :
    MemDB × Option DBErr :=
  match db.attPubKeys pKey with
  | some value =>
    if value ≠ pubkey then (db, some (.clashingPubKey pKey)) else (db, none)
  | none =>
    ({ db with attPubKeys := Map.insert db.attPubKeys pKey pubkey,
               attKeysBySlot := appendAt db.attKeysBySlot dutySlot pKey }, none)

/-- One `if value, ok := db.attDuties[aKey]` block of `storeAttestationUnsafe`:
the Go code compares `value.String() != attData.Data.String()`; `String()` is
an injective rendering of the modelled fields, so the comparison is structural
equality.  A differing value is a clash (`clashing attestation data`); a miss
inserts the data. -/
def putAttDuty (db : MemDB) (aKey : AttKey) (d : AttDataInner) :
    MemDB × Option DBErr :=
  match db.attDuties aKey with
  | some value =>
    if value ≠ d then (db, some (.clashingAttestationData aKey)) else (db, none)
  | none =>
    ({ db with attDuties := Map.insert db.attDuties aKey d }, none)

/-- `storeAttestationUnsafe`: clone (pure model: identity), cast, then the four
check-or-insert blocks in source order — pubkey under the caller key, data
under `(Data.Slot, Duty.CommitteeIndex)`, pubkey under committee index 0, data
under `(Data.Slot, 0)`.  An error return leaves the writes already made in
place, exactly as the Go early returns do. -/
def storeAttestation (db : MemDB) (pubkey : PubKey) (u : UnsignedData) :
    MemDB × Option DBErr :=
  match u with
  | .attestation attData =>
    let pKey : PkKey :=
      ⟨attData.data.slot, attData.duty.committeeIndex, attData.duty.validatorIndex⟩
    match putAttPubKey db pKey attData.duty.slot pubkey with
    | (db1, some e) => (db1, some e)
    | (db1, none) =>
      let aKey : AttKey := ⟨attData.data.slot, attData.duty.committeeIndex⟩
      match putAttDuty db1 aKey attData.data with
      | (db2, some e) => (db2, some e)
      | (db2, none) =>
        let pKey0 : PkKey := ⟨attData.data.slot, 0, attData.duty.validatorIndex⟩
        match putAttPubKey db2 pKey0 attData.duty.slot pubkey with
        | (db3, some e) => (db3, some e)
        | (db3, none) =>
          let aKey0 : AttKey := ⟨attData.data.slot, 0⟩
          putAttDuty db3 aKey0 attData.data
  | _ => (db, some .invalidUnsignedAttestationData)

/-- `storeAggAttestationUnsafe`: key by `(slot, HashTreeRoot(Data()))`.  On a
hit, compare the stored entry's data root with the provided one: unequal is
`clashing data root`; equal overwrites with the provided entry.  On a miss,
insert and append the key to `aggKeysBySlot[slot]`. -/
def storeAggAttestation (db : MemDB) (u : UnsignedData) : MemDB × Option DBErr :=
  match u with
  | .agg aggAtt =>
    let aggRoot := htrAttData aggAtt.data
    let slot := aggAtt.data.slot
    let key : AggKey := ⟨slot, aggRoot⟩
    match db.aggDuties key with
    | some existing =>
      if htrAttData existing.data ≠ htrAttData aggAtt.data then
        (db, some .clashingDataRoot)
      else
        ({ db with aggDuties := Map.insert db.aggDuties key aggAtt }, none)
    | none =>
      ({ db with aggDuties := Map.insert db.aggDuties key aggAtt,
                 aggKeysBySlot := appendAt db.aggKeysBySlot slot key }, none)
  | _ => (db, some .invalidUnsignedAggregatedAttestation)

/-- `storeSyncContributionUnsafe`: key by `(Slot, SubcommitteeIndex,
BeaconBlockRoot)`.  On a hit, a differing hash-tree root is `clashing sync
contributions` and the stored entry is kept; an equal root is a no-op.  On a
miss, insert and append the key to `contribKeysBySlot[Slot]`. -/
def storeSyncContribution (db : MemDB) (u : UnsignedData) : MemDB × Option DBErr :=
  match u with
  | .contrib contrib =>
    let key : ContribKey :=
      ⟨contrib.slot, contrib.subcommitteeIndex, contrib.beaconBlockRoot⟩
    match db.contribDuties key with
    | some existing =>
      if existing.htr ≠ contrib.htr then (db, some .clashingSyncContributions)
      else (db, none)
    | none =>
      ({ db with contribDuties := Map.insert db.contribDuties key contrib,
                 contribKeysBySlot :=
                   appendAt db.contribKeysBySlot contrib.slot key }, none)
  | _ => (db, some .invalidUnsignedSyncContribution)

/-- `storeProposalUnsafe`: key by the proposal's slot.  On a hit, a differing
proposal root is `clashing blocks` and the stored entry is kept; an equal root
is a no-op.  On a miss, insert. -/
def storeProposal (db : MemDB) (u : UnsignedData) : MemDB × Option DBErr :=
  match u with
  | .proposal proposal =>
    match db.proDuties proposal.slot with
    | some existing =>
      if existing.root ≠ proposal.root then (db, some .clashingBlocks)
      else (db, none)
    | none =>
      ({ db with proDuties := Map.insert db.proDuties proposal.slot proposal },
       none)
  | _ => (db, some .invalidVersionedProposal)

/-- The attester arm of `deleteDutyUnsafe`: for each key listed for the slot,
delete the pubkey entry and the `(key.Slot, key.CommIdx)` payload entry. -/
def deleteAttKeys (db : MemDB) : List PkKey → MemDB
  | [] => db
  | k :: rest =>
    deleteAttKeys
      { db with attPubKeys := Map.erase db.attPubKeys k,
                attDuties := Map.erase db.attDuties ⟨k.slot, k.commIdx⟩ } rest

/-- The aggregator arm of `deleteDutyUnsafe`: delete each listed key. -/
def deleteAggKeys (db : MemDB) : List AggKey → MemDB
  | [] => db
  | k :: rest =>
    deleteAggKeys { db with aggDuties := Map.erase db.aggDuties k } rest

/-- The sync-contribution arm of `deleteDutyUnsafe`: delete each listed key. -/
def deleteContribKeys (db : MemDB) : List ContribKey → MemDB
  | [] => db
  | k :: rest =>
    deleteContribKeys
      { db with contribDuties := Map.erase db.contribDuties k } rest

/-- `deleteDutyUnsafe`: dispatch on the duty type and remove the slot's
entries together with its slot-to-keys record; builder-proposer and unknown
types are errors that mutate nothing. -/
def deleteDuty (db : MemDB) (duty : Duty) : MemDB × Option DBErr :=
  match duty.type with
  | .proposer =>
    ({ db with proDuties := Map.erase db.proDuties duty.slot }, none)
  | .builderProposer => (db, some .deprecatedDutyBuilderProposer)
  | .attester =>
    let db1 := deleteAttKeys db (db.attKeysBySlot duty.slot)
    ({ db1 with attKeysBySlot := clearAt db1.attKeysBySlot duty.slot }, none)
  | .aggregator =>
    let db1 := deleteAggKeys db (db.aggKeysBySlot duty.slot)
    ({ db1 with aggKeysBySlot := clearAt db1.aggKeysBySlot duty.slot }, none)
  | .syncContribution =>
    let db1 := deleteContribKeys db (db.contribKeysBySlot duty.slot)
    ({ db1 with contribKeysBySlot := clearAt db1.contribKeysBySlot duty.slot },
     none)
  | .other => (db, some .unknownDutyType)

/-- The `for { select ... default }` drain loop at the end of `Store`: apply
`deleteDutyUnsafe` to each expiration already buffered in the deadliner's
channel, aborting on the first error. -/
def drainExpired (db : MemDB) : List Duty → MemDB × Option DBErr
  | [] => (db, none)
  | d :: rest =>
    match deleteDuty db d with
    | (db1, some e) => (db1, some e)
    | (db1, none) => drainExpired db1 rest

/-- The proposer loop of `Store` over the unsigned data set (Go map iteration
order modelled as the list order). -/
def storeProposerSet (db : MemDB) : List (PubKey × UnsignedData) → MemDB × Option DBErr
  | [] => (db, none)
  | (_, u) :: rest =>
    match storeProposal db u with
    | (db1, some e) => (db1, some e)
    | (db1, none) => storeProposerSet db1 rest

/-- The attester loop of `Store` over the unsigned data set. -/
def storeAttesterSet (db : MemDB) : List (PubKey × UnsignedData) → MemDB × Option DBErr
  | [] => (db, none)
  | (pk, u) :: rest =>
    match storeAttestation db pk u with
    | (db1, some e) => (db1, some e)
    | (db1, none) => storeAttesterSet db1 rest

/-- The aggregator loop of `Store` over the unsigned data set. -/
def storeAggSet (db : MemDB) : List (PubKey × UnsignedData) → MemDB × Option DBErr
  | [] => (db, none)
  | (_, u) :: rest =>
    match storeAggAttestation db u with
    | (db1, some e) => (db1, some e)
    | (db1, none) => storeAggSet db1 rest

/-- The sync-contribution loop of `Store` over the unsigned data set. -/
def storeContribSet (db : MemDB) : List (PubKey × UnsignedData) → MemDB × Option DBErr
  | [] => (db, none)
  | (_, u) :: rest =>
    match storeSyncContribution db u with
    | (db1, some e) => (db1, some e)
    | (db1, none) => storeContribSet db1 rest

/-- `Store`: offer the duty to the deadliner (`deadlinerOk` is its answer; a
refusal stores nothing), dispatch on the duty type (the proposer arm first
checks the set has at most one element), resolve the matching queries, then
drain the already-emitted expirations (`expired` is the content of the
deadliner's channel).  The state component of the result reflects every write
made before an error, as in Go. -/
def dutyStore (db : MemDB) (duty : Duty) (set : List (PubKey × UnsignedData))
    (deadlinerOk : Bool) (expired : List Duty) : MemDB × Option DBErr :=
  if deadlinerOk = false then (db, some .expiredDuty)
  else
    match duty.type with
    | .proposer =>
      if set.length > 1 then (db, some .proposerSetTooLong)
      else
        match storeProposerSet db set with
        | (db1, some e) => (db1, some e)
        | (db1, none) => drainExpired (resolveProQueries db1) expired
    | .builderProposer => (db, some .deprecatedDutyBuilderProposer)
    | .attester =>
      match storeAttesterSet db set with
      | (db1, some e) => (db1, some e)
      | (db1, none) => drainExpired (resolveAttQueries db1) expired
    | .aggregator =>
      match storeAggSet db set with
      | (db1, some e) => (db1, some e)
      | (db1, none) => drainExpired (resolveAggQueries db1) expired
    | .syncContribution =>
      match storeContribSet db set with
      | (db1, some e) => (db1, some e)
      | (db1, none) => drainExpired (resolveContribQueries db1) expired
    | .other => (db, some .unsupportedDutyType)

/-- The locked section of `AwaitProposal`: allocate a fresh capacity-1
response channel (its identity is `db.nextQueryId`) and an open cancel
channel, append the query, and run the resolver pass before unlocking.
Returns the new state and the channel identity. -/
def awaitProposalRegister (db : MemDB) (slot : Nat) : MemDB × Nat :=
  let q : Query Nat := ⟨db.nextQueryId, slot, false⟩
  (resolveProQueries
     { db with proQueries := db.proQueries ++ [q],
               nextQueryId := db.nextQueryId + 1 },
   db.nextQueryId)

/-- The locked section of `AwaitAttestation` (see `awaitProposalRegister`). -/
def awaitAttestationRegister (db : MemDB) (slot commIdx : Nat) : MemDB × Nat :=
  let q : Query AttKey := ⟨db.nextQueryId, ⟨slot, commIdx⟩, false⟩
  (resolveAttQueries
     { db with attQueries := db.attQueries ++ [q],
               nextQueryId := db.nextQueryId + 1 },
   db.nextQueryId)

/-- The locked section of `AwaitAggAttestation` (see `awaitProposalRegister`). -/
def awaitAggAttestationRegister (db : MemDB) (slot : Nat) (root : AttDataInner) :
    MemDB × Nat :=
  let q : Query AggKey := ⟨db.nextQueryId, ⟨slot, root⟩, false⟩
  (resolveAggQueries
     { db with aggQueries := db.aggQueries ++ [q],
               nextQueryId := db.nextQueryId + 1 },
   db.nextQueryId)

/-- The locked section of `AwaitSyncContribution` (see
`awaitProposalRegister`). -/
def awaitSyncContributionRegister (db : MemDB) (slot subcommIdx root : Nat) :
    MemDB × Nat :=
  let q : Query ContribKey := ⟨db.nextQueryId, ⟨slot, subcommIdx, root⟩, false⟩
  (resolveContribQueries
     { db with contribQueries := db.contribQueries ++ [q],
               nextQueryId := db.nextQueryId + 1 },
   db.nextQueryId)

/-- `PubKeyByAttestation`: synchronous map lookup, `pubkey not found` on a
miss. -/
def pubKeyByAttestation (db : MemDB) (slot commIdx valIdx : Nat) :
    Except DBErr PubKey :=
  match db.attPubKeys ⟨slot, commIdx, valIdx⟩ with
  | some pk => .ok pk
  | none => .error .pubkeyNotFound

/-- `Shutdown`: close the shutdown channel (callable once). -/
def shutdownDB (db : MemDB) : MemDB :=
  { db with shutdownClosed := true }

/-- Mark the query with channel identity `id` cancelled: the caller's
`defer close(cancel)` has run. -/
def cancelQueryIn {κ : Type} (qs : List (Query κ)) (id : Nat) : List (Query κ) :=
  qs.map fun q => if q.id = id then { q with cancel := true } else q

/-- The outcome of the `select` at the tail of an `Await*` call. -/
inductive AwaitOutcome (ν : Type)
  | shutdownErr
  | ctxDone
  | delivered (v : ν)
deriving DecidableEq, Repr

/-- Go `select` semantics for the tail of an `Await*` call: a branch may be
taken exactly when its channel is ready, and when several are ready the
runtime picks among them (pseudo-randomly), so every ready branch is a
possible outcome.  The response channel of query `id` is ready exactly when a
delivery to `id` is buffered. -/
def selectReady {ν : Type} (deliveries : List (Nat × ν))
    (shutdownClosed ctxIsDone : Bool) (id : Nat) : AwaitOutcome ν → Prop
  | .shutdownErr => shutdownClosed = true
  | .ctxDone => ctxIsDone = true
  | .delivered v => (id, v) ∈ deliveries

/-- `VersionedAggregatedAttestation.Clone()` as used by `AwaitAggAttestation`
before returning: a deep copy, which on immutable model values is the
identity. -/
def VersionedAggregatedAttestation.clone (a : VersionedAggregatedAttestation) :
    VersionedAggregatedAttestation := a

/-- The external events that drive one `MemDB` instance; each event is one
atomic critical section (the mutex serializes them).  `store` carries the
deadliner's verdict and the expirations buffered in its channel; the four
`await...` events are the locked registration sections; the four `cancel...`
events are caller-side cancellations of a queued query; `shutdownEv` closes
the shutdown channel. -/
inductive Event
  | store (duty : Duty) (set : List (PubKey × UnsignedData))
      (deadlinerOk : Bool) (expired : List Duty)
  | awaitPro (slot : Nat)
  | awaitAtt (slot commIdx : Nat)
  | awaitAgg (slot : Nat) (root : AttDataInner)
  | awaitContrib (slot subcommIdx root : Nat)
  | cancelPro (id : Nat)
  | cancelAtt (id : Nat)
  | cancelAgg (id : Nat)
  | cancelContrib (id : Nat)
  | shutdownEv

/-- Apply one event to the state. -/
def applyEvent (db : MemDB) : Event → MemDB
  | .store duty set deadlinerOk expired =>
    (dutyStore db duty set deadlinerOk expired).1
  | .awaitPro slot => (awaitProposalRegister db slot).1
  | .awaitAtt slot commIdx => (awaitAttestationRegister db slot commIdx).1
  | .awaitAgg slot root => (awaitAggAttestationRegister db slot root).1
  | .awaitContrib slot subcommIdx root =>
    (awaitSyncContributionRegister db slot subcommIdx root).1
  | .cancelPro id => { db with proQueries := cancelQueryIn db.proQueries id }
  | .cancelAtt id => { db with attQueries := cancelQueryIn db.attQueries id }
  | .cancelAgg id => { db with aggQueries := cancelQueryIn db.aggQueries id }
  | .cancelContrib id =>
    { db with contribQueries := cancelQueryIn db.contribQueries id }
  | .shutdownEv => shutdownDB db

/-- The states one `MemDB` instance can reach from `NewMemDB`. -/
inductive Reachable : MemDB → Prop
  | init : Reachable initDB
  | step (db : MemDB) (e : Event) : Reachable db → Reachable (applyEvent db e)

/-- An attester payload is coherent when the slot of its beacon data equals
the slot of its duty descriptor — true of everything the charon pipeline
feeds to `Store`, where both derive from the same scheduled duty. -/
def GoodUnsigned : UnsignedData → Prop
  | .attestation a => a.data.slot = a.duty.slot
  | _ => True

/-- An event whose attester payloads are all coherent. -/
def GoodEvent : Event → Prop
  | .store _ set _ _ => ∀ p ∈ set, GoodUnsigned p.2
  | _ => True

/-- Reachability when every store event carries coherent attester payloads. -/
inductive GoodReachable : MemDB → Prop
  | init : GoodReachable initDB
  | step (db : MemDB) (e : Event) :
      GoodReachable db → GoodEvent e → GoodReachable (applyEvent db e)

theorem Map.insert_same {κ ν : Type} [DecidableEq κ] (m : κ → Option ν)
    (k : κ) (v : ν) : Map.insert m k v k = some v := by
  simp [Map.insert]

theorem Map.insert_other {κ ν : Type} [DecidableEq κ] (m : κ → Option ν)
    (k x : κ) (v : ν) (h : x ≠ k) : Map.insert m k v x = m x := by
  simp [Map.insert, h]

theorem Map.erase_same {κ ν : Type} [DecidableEq κ] (m : κ → Option ν)
    (k : κ) : Map.erase m k k = none := by
  simp [Map.erase]

theorem Map.erase_other {κ ν : Type} [DecidableEq κ] (m : κ → Option ν)
    (k x : κ) (h : x ≠ k) : Map.erase m k x = m x := by
  simp [Map.erase, h]

/-- The unresolved list a resolver pass keeps: exactly the queries that are
not cancelled and whose key is absent, in their original order. -/
theorem resolveList_fst {κ ν : Type} (lookup : κ → Option ν)
    (qs : List (Query κ)) :
    (resolveList lookup qs).1 =
      qs.filter fun q => !q.cancel && (lookup q.key).isNone := by
  induction qs with
  | nil => rfl
  | cons q rest ih =>
    by_cases hc : q.cancel = true
    · simp [resolveList, hc, ih, List.filter_cons]
    · simp only [Bool.not_eq_true] at hc
      cases hk : lookup q.key <;>
        simp [resolveList, hc, hk, ih, List.filter_cons]

/-- The channel writes a resolver pass makes: one `(id, value)` per
non-cancelled query whose key is present, in query order. -/
theorem resolveList_snd {κ ν : Type} (lookup : κ → Option ν)
    (qs : List (Query κ)) :
    (resolveList lookup qs).2 =
      qs.filterMap fun q =>
        if q.cancel then none else (lookup q.key).map fun v => (q.id, v) := by
  induction qs with
  | nil => rfl
  | cons q rest ih =>
    by_cases hc : q.cancel = true
    · simp [resolveList, hc, ih, List.filterMap_cons]
    · simp only [Bool.not_eq_true] at hc
      cases hk : lookup q.key <;>
        simp [resolveList, hc, hk, ih, List.filterMap_cons]

/-- `db'` agrees with `db` on every waiter-registry and channel field: what
the pure store and evict paths never touch. -/
def FrameEq (db db' : MemDB) : Prop :=
  db'.attQueries = db.attQueries ∧ db'.proQueries = db.proQueries ∧
  db'.aggQueries = db.aggQueries ∧ db'.contribQueries = db.contribQueries ∧
  db'.attDeliveries = db.attDeliveries ∧ db'.proDeliveries = db.proDeliveries ∧
  db'.aggDeliveries = db.aggDeliveries ∧
  db'.contribDeliveries = db.contribDeliveries ∧
  db'.nextQueryId = db.nextQueryId ∧ db'.shutdownClosed = db.shutdownClosed

theorem FrameEq.refl (db : MemDB) : FrameEq db db :=
  ⟨rfl, rfl, rfl, rfl, rfl, rfl, rfl, rfl, rfl, rfl⟩

theorem FrameEq.trans {db1 db2 db3 : MemDB} (h1 : FrameEq db1 db2)
    (h2 : FrameEq db2 db3) : FrameEq db1 db3 := by
  obtain ⟨a1, a2, a3, a4, a5, a6, a7, a8, a9, a10⟩ := h1
  obtain ⟨b1, b2, b3, b4, b5, b6, b7, b8, b9, b10⟩ := h2
  exact ⟨b1.trans a1, b2.trans a2, b3.trans a3, b4.trans a4, b5.trans a5,
    b6.trans a6, b7.trans a7, b8.trans a8, b9.trans a9, b10.trans a10⟩

theorem putAttPubKey_frame (db : MemDB) (pKey : PkKey) (ds : Nat)
    (pk : PubKey) : FrameEq db (putAttPubKey db pKey ds pk).1 := by
  unfold putAttPubKey
  cases db.attPubKeys pKey with
  | none => exact FrameEq.refl _
  | some value =>
    by_cases h : value ≠ pk <;> simp [h] <;> exact FrameEq.refl _

theorem putAttDuty_frame (db : MemDB) (aKey : AttKey) (d : AttDataInner) :
    FrameEq db (putAttDuty db aKey d).1 := by
  unfold putAttDuty
  cases db.attDuties aKey with
  | none => exact FrameEq.refl _
  | some value =>
    by_cases h : value ≠ d <;> simp [h] <;> exact FrameEq.refl _

theorem storeAttestation_frame (db : MemDB) (pk : PubKey) (u : UnsignedData) :
    FrameEq db (storeAttestation db pk u).1 := by
  cases u with
  | attestation a =>
    unfold storeAttestation
    rcases h1 : putAttPubKey db ⟨a.data.slot, a.duty.committeeIndex,
        a.duty.validatorIndex⟩ a.duty.slot pk with ⟨db1, e1⟩
    have f1 := putAttPubKey_frame db ⟨a.data.slot, a.duty.committeeIndex,
        a.duty.validatorIndex⟩ a.duty.slot pk
    rw [h1] at f1
    cases e1 with
    | some e => simpa [h1] using f1
    | none =>
      rcases h2 : putAttDuty db1 ⟨a.data.slot, a.duty.committeeIndex⟩ a.data
        with ⟨db2, e2⟩
      have f2 := putAttDuty_frame db1 ⟨a.data.slot, a.duty.committeeIndex⟩
        a.data
      rw [h2] at f2
      cases e2 with
      | some e => simpa [h1, h2] using f1.trans f2
      | none =>
        rcases h3 : putAttPubKey db2 ⟨a.data.slot, 0, a.duty.validatorIndex⟩
            a.duty.slot pk with ⟨db3, e3⟩
        have f3 := putAttPubKey_frame db2 ⟨a.data.slot, 0,
            a.duty.validatorIndex⟩ a.duty.slot pk
        rw [h3] at f3
        cases e3 with
        | some e => simpa [h1, h2, h3] using (f1.trans f2).trans f3
        | none =>
          have f4 := putAttDuty_frame db3 ⟨a.data.slot, 0⟩ a.data
          simpa [h1, h2, h3] using ((f1.trans f2).trans f3).trans f4
  | proposal p => exact FrameEq.refl _
  | agg a => exact FrameEq.refl _
  | contrib c => exact FrameEq.refl _

theorem storeAggAttestation_frame (db : MemDB) (u : UnsignedData) :
    FrameEq db (storeAggAttestation db u).1 := by
  cases u with
  | agg a =>
    rcases h : db.aggDuties ⟨a.data.slot, htrAttData a.data⟩ with _ | existing
    · simp [storeAggAttestation, h, FrameEq]
    · by_cases hr : htrAttData existing.data = htrAttData a.data <;>
        simp [storeAggAttestation, h, hr, FrameEq]
  | attestation a => exact FrameEq.refl _
  | proposal p => exact FrameEq.refl _
  | contrib c => exact FrameEq.refl _

theorem storeSyncContribution_frame (db : MemDB) (u : UnsignedData) :
    FrameEq db (storeSyncContribution db u).1 := by
  cases u with
  | contrib c =>
    rcases h : db.contribDuties ⟨c.slot, c.subcommitteeIndex, c.beaconBlockRoot⟩
      with _ | existing
    · simp [storeSyncContribution, h, FrameEq]
    · by_cases hr : existing.htr = c.htr <;>
        simp [storeSyncContribution, h, hr, FrameEq]
  | attestation a => exact FrameEq.refl _
  | proposal p => exact FrameEq.refl _
  | agg a => exact FrameEq.refl _

theorem storeProposal_frame (db : MemDB) (u : UnsignedData) :
    FrameEq db (storeProposal db u).1 := by
  cases u with
  | proposal p =>
    rcases h : db.proDuties p.slot with _ | existing
    · simp [storeProposal, h, FrameEq]
    · by_cases hr : existing.root = p.root <;> simp [storeProposal, h, hr, FrameEq]
  | attestation a => exact FrameEq.refl _
  | agg a => exact FrameEq.refl _
  | contrib c => exact FrameEq.refl _

theorem deleteAttKeys_frame (ks : List PkKey) (db : MemDB) :
    FrameEq db (deleteAttKeys db ks) := by
  induction ks generalizing db with
  | nil => exact FrameEq.refl _
  | cons k rest ih =>
    exact FrameEq.trans (FrameEq.refl _) ((FrameEq.refl _).trans (ih _))

theorem deleteAggKeys_frame (ks : List AggKey) (db : MemDB) :
    FrameEq db (deleteAggKeys db ks) := by
  induction ks generalizing db with
  | nil => exact FrameEq.refl _
  | cons k rest ih => exact (FrameEq.refl _).trans (ih _)

theorem deleteContribKeys_frame (ks : List ContribKey) (db : MemDB) :
    FrameEq db (deleteContribKeys db ks) := by
  induction ks generalizing db with
  | nil => exact FrameEq.refl _
  | cons k rest ih => exact (FrameEq.refl _).trans (ih _)

theorem deleteDuty_frame (db : MemDB) (duty : Duty) :
    FrameEq db (deleteDuty db duty).1 := by
  unfold deleteDuty
  cases duty.type with
  | proposer => exact FrameEq.refl _
  | builderProposer => exact FrameEq.refl _
  | attester =>
    exact (deleteAttKeys_frame _ db).trans (FrameEq.refl _)
  | aggregator =>
    exact (deleteAggKeys_frame _ db).trans (FrameEq.refl _)
  | syncContribution =>
    exact (deleteContribKeys_frame _ db).trans (FrameEq.refl _)
  | other => exact FrameEq.refl _

theorem drainExpired_frame (expired : List Duty) (db : MemDB) :
    FrameEq db (drainExpired db expired).1 := by
  induction expired generalizing db with
  | nil => exact FrameEq.refl _
  | cons d rest ih =>
    unfold drainExpired
    rcases h : deleteDuty db d with ⟨db1, e1⟩
    have f1 := deleteDuty_frame db d
    rw [h] at f1
    cases e1 with
    | some e => exact f1
    | none => exact f1.trans (ih db1)

theorem deleteAttKeys_attPubKeys (ks : List PkKey) (db : MemDB) (k : PkKey) :
    (deleteAttKeys db ks).attPubKeys k =
      if k ∈ ks then none else db.attPubKeys k := by
  induction ks generalizing db with
  | nil => simp [deleteAttKeys]
  | cons k0 rest ih =>
    by_cases hk : k ∈ rest
    · simp [deleteAttKeys, ih, hk]
    · by_cases he : k = k0
      · subst he
        simp [deleteAttKeys, ih, hk, Map.erase_same]
      · simp [deleteAttKeys, ih, hk, he, Map.erase_other _ _ _ he]

theorem deleteAttKeys_attDuties (ks : List PkKey) (db : MemDB) (ak : AttKey) :
    (deleteAttKeys db ks).attDuties ak =
      if ∃ k ∈ ks, (⟨k.slot, k.commIdx⟩ : AttKey) = ak then none
      else db.attDuties ak := by
  induction ks generalizing db with
  | nil => simp [deleteAttKeys]
  | cons k0 rest ih =>
    by_cases hk : ∃ k ∈ rest, (⟨k.slot, k.commIdx⟩ : AttKey) = ak
    · simp [deleteAttKeys, ih, hk]
    · by_cases he : (⟨k0.slot, k0.commIdx⟩ : AttKey) = ak
      · rw [if_pos ⟨k0, List.mem_cons_self k0 rest, he⟩]
        have step : (deleteAttKeys db (k0 :: rest)).attDuties ak =
            Map.erase db.attDuties ⟨k0.slot, k0.commIdx⟩ ak := by
          simp [deleteAttKeys, ih, hk]
        rw [step, ← he, Map.erase_same]
      · have he' : ak ≠ (⟨k0.slot, k0.commIdx⟩ : AttKey) := fun h => he h.symm
        simp [deleteAttKeys, ih, hk, he, Map.erase_other _ _ _ he']

theorem deleteAttKeys_rest (ks : List PkKey) (db : MemDB) :
    (deleteAttKeys db ks).attKeysBySlot = db.attKeysBySlot ∧
    (deleteAttKeys db ks).aggDuties = db.aggDuties := by
  induction ks generalizing db with
  | nil => exact ⟨rfl, rfl⟩
  | cons k0 rest ih => simpa [deleteAttKeys] using ih _

theorem deleteAggKeys_aggDuties (ks : List AggKey) (db : MemDB) (k : AggKey) :
    (deleteAggKeys db ks).aggDuties k =
      if k ∈ ks then none else db.aggDuties k := by
  induction ks generalizing db with
  | nil => simp [deleteAggKeys]
  | cons k0 rest ih =>
    by_cases hk : k ∈ rest
    · simp [deleteAggKeys, ih, hk]
    · by_cases he : k = k0
      · subst he
        simp [deleteAggKeys, ih, hk, Map.erase_same]
      · simp [deleteAggKeys, ih, hk, he, Map.erase_other _ _ _ he]

theorem deleteAggKeys_rest (ks : List AggKey) (db : MemDB) :
    (deleteAggKeys db ks).attDuties = db.attDuties ∧
    (deleteAggKeys db ks).attPubKeys = db.attPubKeys ∧
    (deleteAggKeys db ks).attKeysBySlot = db.attKeysBySlot := by
  induction ks generalizing db with
  | nil => exact ⟨rfl, rfl, rfl⟩
  | cons k0 rest ih => simpa [deleteAggKeys] using ih _

theorem deleteContribKeys_rest (ks : List ContribKey) (db : MemDB) :
    (deleteContribKeys db ks).attDuties = db.attDuties ∧
    (deleteContribKeys db ks).attPubKeys = db.attPubKeys ∧
    (deleteContribKeys db ks).attKeysBySlot = db.attKeysBySlot ∧
    (deleteContribKeys db ks).aggDuties = db.aggDuties := by
  induction ks generalizing db with
  | nil => exact ⟨rfl, rfl, rfl, rfl⟩
  | cons k0 rest ih => simpa [deleteContribKeys] using ih _

theorem putAttPubKey_ok (db : MemDB) (pKey : PkKey) (ds : Nat) (pk : PubKey)
    (h : (putAttPubKey db pKey ds pk).2 = none) :
    (putAttPubKey db pKey ds pk).1.attPubKeys pKey = some pk := by
  rcases hpk : db.attPubKeys pKey with _ | v
  · simp [putAttPubKey, hpk, Map.insert_same]
  · by_cases hv : v = pk
    · simp [putAttPubKey, hpk, hv]
    · simp [putAttPubKey, hpk, hv] at h

theorem putAttPubKey_mono (db : MemDB) (pKey : PkKey) (ds : Nat)
    (pk : PubKey) (k : PkKey) (x : PubKey) (hx : db.attPubKeys k = some x) :
    (putAttPubKey db pKey ds pk).1.attPubKeys k = some x := by
  rcases hpk : db.attPubKeys pKey with _ | v
  · have hne : k ≠ pKey := by
      intro he
      rw [he, hpk] at hx
      exact Option.noConfusion hx
    simp [putAttPubKey, hpk, Map.insert_other _ _ _ _ hne, hx]
  · by_cases hv : v = pk <;> simp [putAttPubKey, hpk, hv, hx]

theorem putAttPubKey_attDuties (db : MemDB) (pKey : PkKey) (ds : Nat)
    (pk : PubKey) : (putAttPubKey db pKey ds pk).1.attDuties = db.attDuties := by
  rcases hpk : db.attPubKeys pKey with _ | v
  · simp [putAttPubKey, hpk]
  · by_cases hv : v = pk <;> simp [putAttPubKey, hpk, hv]

theorem putAttPubKey_aggDuties (db : MemDB) (pKey : PkKey) (ds : Nat)
    (pk : PubKey) : (putAttPubKey db pKey ds pk).1.aggDuties = db.aggDuties := by
  rcases hpk : db.attPubKeys pKey with _ | v
  · simp [putAttPubKey, hpk]
  · by_cases hv : v = pk <;> simp [putAttPubKey, hpk, hv]

theorem putAttDuty_ok (db : MemDB) (aKey : AttKey) (d : AttDataInner)
    (h : (putAttDuty db aKey d).2 = none) :
    (putAttDuty db aKey d).1.attDuties aKey = some d := by
  rcases hd : db.attDuties aKey with _ | v
  · simp [putAttDuty, hd, Map.insert_same]
  · by_cases hv : v = d
    · simp [putAttDuty, hd, hv]
    · simp [putAttDuty, hd, hv] at h

theorem putAttDuty_mono (db : MemDB) (aKey : AttKey) (d : AttDataInner)
    (k : AttKey) (x : AttDataInner) (hx : db.attDuties k = some x) :
    (putAttDuty db aKey d).1.attDuties k = some x := by
  rcases hd : db.attDuties aKey with _ | v
  · have hne : k ≠ aKey := by
      intro he
      rw [he, hd] at hx
      exact Option.noConfusion hx
    simp [putAttDuty, hd, Map.insert_other _ _ _ _ hne, hx]
  · by_cases hv : v = d <;> simp [putAttDuty, hd, hv, hx]

theorem putAttDuty_attPubKeys (db : MemDB) (aKey : AttKey) (d : AttDataInner) :
    (putAttDuty db aKey d).1.attPubKeys = db.attPubKeys ∧
    (putAttDuty db aKey d).1.attKeysBySlot = db.attKeysBySlot ∧
    (putAttDuty db aKey d).1.aggDuties = db.aggDuties := by
  rcases hd : db.attDuties aKey with _ | v
  · simp [putAttDuty, hd]
  · by_cases hv : v = d <;> simp [putAttDuty, hd, hv]

/-- The channel ids a resolver pass writes to: the ids of the non-cancelled
queries whose key is present. -/
theorem resolveList_snd_ids {κ ν : Type} (lookup : κ → Option ν)
    (qs : List (Query κ)) :
    (resolveList lookup qs).2.map Prod.fst =
      (qs.filter fun q => !q.cancel && (lookup q.key).isSome).map Query.id := by
  induction qs with
  | nil => rfl
  | cons q rest ih =>
    by_cases hc : q.cancel = true
    · simp [resolveList, hc, List.filter_cons, ih]
    · simp only [Bool.not_eq_true] at hc
      cases hk : lookup q.key <;>
        simp [resolveList, hc, hk, List.filter_cons, ih]

/-- Well-formedness of one duty kind's waiter registry and channel log:
pending channel ids are below the allocator and pairwise distinct, the log
holds at most one write per channel, every logged id is below the allocator,
and a pending query's channel has never been written. -/
def chanOk {κ ν : Type} (qs : List (Query κ)) (log : List (Nat × ν))
    (next : Nat) : Prop :=
  (∀ q ∈ qs, q.id < next) ∧ (qs.map Query.id).Nodup ∧
  (∀ p ∈ log, p.1 < next) ∧ (log.map Prod.fst).Nodup ∧
  (∀ q ∈ qs, q.id ∉ log.map Prod.fst)

/-- A resolver pass preserves channel well-formedness: it moves each matched
query's one write into the log and keeps the rest pending. -/
theorem chanOk_resolve {κ ν : Type} (lookup : κ → Option ν)
    (qs : List (Query κ)) (log : List (Nat × ν)) (next : Nat)
    (h : chanOk qs log next) :
    chanOk (resolveList lookup qs).1 (log ++ (resolveList lookup qs).2) next := by
  obtain ⟨h1, h2, h3, h4, h5⟩ := h
  have hfst := resolveList_fst lookup qs
  have hids := resolveList_snd_ids lookup qs
  have hsub1 : ((resolveList lookup qs).1.map Query.id).Sublist
      (qs.map Query.id) := by
    rw [hfst]
    exact (List.filter_sublist qs).map Query.id
  have hsub2 : ((resolveList lookup qs).2.map Prod.fst).Sublist
      (qs.map Query.id) := by
    rw [hids]
    exact (List.filter_sublist qs).map Query.id
  refine ⟨?_, h2.sublist hsub1, ?_, ?_, ?_⟩
  · intro q hq
    rw [hfst] at hq
    exact h1 q (List.mem_filter.mp hq).1
  · intro p hp
    rcases List.mem_append.mp hp with hp | hp
    · exact h3 p hp
    · have hm : p.1 ∈ (resolveList lookup qs).2.map Prod.fst :=
        List.mem_map_of_mem _ hp
      rcases List.mem_map.mp (hsub2.subset hm) with ⟨q, hq, hqid⟩
      exact hqid ▸ h1 q hq
  · rw [List.map_append]
    refine List.Nodup.append h4 (h2.sublist hsub2) ?_
    intro a ha1 ha2
    rcases List.mem_map.mp (hsub2.subset ha2) with ⟨q, hq, rfl⟩
    exact h5 q hq ha1
  · intro q hq
    rw [hfst] at hq
    obtain ⟨hqs, hcond⟩ := List.mem_filter.mp hq
    rw [List.map_append]
    intro hmem
    rcases List.mem_append.mp hmem with hm | hm
    · exact h5 q hqs hm
    · rw [hids] at hm
      rcases List.mem_map.mp hm with ⟨q', hq', hid⟩
      obtain ⟨hq's, hcond'⟩ := List.mem_filter.mp hq'
      have heq : q' = q := List.inj_on_of_nodup_map h2 hq's hqs hid
      subst heq
      rcases hk : lookup q'.key with _ | v
      · rw [hk] at hcond'
        simp at hcond'
      · rw [hk] at hcond
        simp at hcond

/-- Channel well-formedness is monotone in the id allocator. -/
theorem chanOk_mono_next {κ ν : Type} {qs : List (Query κ)}
    {log : List (Nat × ν)} {next next' : Nat} (h : chanOk qs log next)
    (hle : next ≤ next') : chanOk qs log next' := by
  obtain ⟨h1, h2, h3, h4, h5⟩ := h
  exact ⟨fun q hq => lt_of_lt_of_le (h1 q hq) hle, h2,
    fun p hp => lt_of_lt_of_le (h3 p hp) hle, h4, h5⟩

/-- Registering a fresh query with the next channel id preserves channel
well-formedness. -/
theorem chanOk_append {κ ν : Type} {qs : List (Query κ)}
    {log : List (Nat × ν)} {next : Nat} (k : κ) (h : chanOk qs log next) :
    chanOk (qs ++ [⟨next, k, false⟩]) log (next + 1) := by
  obtain ⟨h1, h2, h3, h4, h5⟩ := h
  refine ⟨?_, ?_, fun p hp => Nat.lt_succ_of_lt (h3 p hp), h4, ?_⟩
  · intro q hq
    rcases List.mem_append.mp hq with hq | hq
    · exact Nat.lt_succ_of_lt (h1 q hq)
    · rw [List.mem_singleton.mp hq]
      exact Nat.lt_succ_self next
  · rw [List.map_append]
    refine List.Nodup.append h2 (List.nodup_singleton _) ?_
    intro a ha1 ha2
    rcases List.mem_map.mp ha1 with ⟨q, hq, rfl⟩
    simp only [List.map_cons, List.map_nil, List.mem_singleton] at ha2
    exact absurd (ha2 ▸ h1 q hq) (lt_irrefl next)
  · intro q hq
    rcases List.mem_append.mp hq with hq | hq
    · exact h5 q hq
    · rw [List.mem_singleton.mp hq]
      intro hmem
      rcases List.mem_map.mp hmem with ⟨p, hp, hpid⟩
      have hpid' : p.1 = next := hpid
      have hlt := h3 p hp
      rw [hpid'] at hlt
      exact lt_irrefl next hlt

/-- Cancelling a query does not change its channel id. -/
theorem cancelQueryIn_ids {κ : Type} (qs : List (Query κ)) (id : Nat) :
    (cancelQueryIn qs id).map Query.id = qs.map Query.id := by
  induction qs with
  | nil => rfl
  | cons q rest ih =>
    by_cases hq : q.id = id <;> simp [cancelQueryIn, hq] <;>
      simpa [cancelQueryIn] using ih

/-- Cancelling a query preserves channel well-formedness. -/
theorem chanOk_cancel {κ ν : Type} {qs : List (Query κ)}
    {log : List (Nat × ν)} {next : Nat} (id : Nat) (h : chanOk qs log next) :
    chanOk (cancelQueryIn qs id) log next := by
  obtain ⟨h1, h2, h3, h4, h5⟩ := h
  have hmem : ∀ q' ∈ cancelQueryIn qs id, ∃ q ∈ qs, q'.id = q.id := by
    intro q' hq'
    rcases List.mem_map.mp hq' with ⟨q, hq, rfl⟩
    by_cases hqi : q.id = id
    · exact ⟨q, hq, by simp [hqi]⟩
    · exact ⟨q, hq, by simp [hqi]⟩
  refine ⟨?_, ?_, h3, h4, ?_⟩
  · intro q' hq'
    rcases hmem q' hq' with ⟨q, hq, he⟩
    exact he ▸ h1 q hq
  · rw [cancelQueryIn_ids]
    exact h2
  · intro q' hq'
    rcases hmem q' hq' with ⟨q, hq, he⟩
    exact he ▸ h5 q hq

theorem storeAttestation_aggDuties (db : MemDB) (pk : PubKey)
    (u : UnsignedData) :
    (storeAttestation db pk u).1.aggDuties = db.aggDuties := by
  cases u with
  | attestation a =>
    unfold storeAttestation
    rcases h1 : putAttPubKey db ⟨a.data.slot, a.duty.committeeIndex,
        a.duty.validatorIndex⟩ a.duty.slot pk with ⟨db1, e1⟩
    have g1 : db1.aggDuties = db.aggDuties := by
      have := putAttPubKey_aggDuties db ⟨a.data.slot, a.duty.committeeIndex,
        a.duty.validatorIndex⟩ a.duty.slot pk
      rw [h1] at this
      exact this
    cases e1 with
    | some e => simpa [h1] using g1
    | none =>
      rcases h2 : putAttDuty db1 ⟨a.data.slot, a.duty.committeeIndex⟩ a.data
        with ⟨db2, e2⟩
      have g2 : db2.aggDuties = db1.aggDuties := by
        have := (putAttDuty_attPubKeys db1 ⟨a.data.slot, a.duty.committeeIndex⟩
          a.data).2.2
        rw [h2] at this
        exact this
      cases e2 with
      | some e => simpa [h1, h2] using g2.trans g1
      | none =>
        rcases h3 : putAttPubKey db2 ⟨a.data.slot, 0, a.duty.validatorIndex⟩
            a.duty.slot pk with ⟨db3, e3⟩
        have g3 : db3.aggDuties = db2.aggDuties := by
          have := putAttPubKey_aggDuties db2 ⟨a.data.slot, 0,
            a.duty.validatorIndex⟩ a.duty.slot pk
          rw [h3] at this
          exact this
        cases e3 with
        | some e => simpa [h1, h2, h3] using (g3.trans g2).trans g1
        | none =>
          have g4 := (putAttDuty_attPubKeys db3 ⟨a.data.slot, 0⟩ a.data).2.2
          simpa [h1, h2, h3] using (g4.trans g3).trans (g2.trans g1)
  | proposal p => rfl
  | agg a => rfl
  | contrib c => rfl

theorem storeProposal_untouched (db : MemDB) (u : UnsignedData) :
    (storeProposal db u).1.aggDuties = db.aggDuties ∧
    (storeProposal db u).1.attDuties = db.attDuties ∧
    (storeProposal db u).1.attPubKeys = db.attPubKeys ∧
    (storeProposal db u).1.attKeysBySlot = db.attKeysBySlot := by
  cases u with
  | proposal p =>
    rcases h : db.proDuties p.slot with _ | existing
    · simp [storeProposal, h]
    · by_cases hr : existing.root = p.root <;> simp [storeProposal, h, hr]
  | attestation a => exact ⟨rfl, rfl, rfl, rfl⟩
  | agg a => exact ⟨rfl, rfl, rfl, rfl⟩
  | contrib c => exact ⟨rfl, rfl, rfl, rfl⟩

theorem storeSyncContribution_untouched (db : MemDB) (u : UnsignedData) :
    (storeSyncContribution db u).1.aggDuties = db.aggDuties ∧
    (storeSyncContribution db u).1.attDuties = db.attDuties ∧
    (storeSyncContribution db u).1.attPubKeys = db.attPubKeys ∧
    (storeSyncContribution db u).1.attKeysBySlot = db.attKeysBySlot := by
  cases u with
  | contrib c =>
    rcases h : db.contribDuties ⟨c.slot, c.subcommitteeIndex, c.beaconBlockRoot⟩
      with _ | existing
    · simp [storeSyncContribution, h]
    · by_cases hr : existing.htr = c.htr <;> simp [storeSyncContribution, h, hr]
  | attestation a => exact ⟨rfl, rfl, rfl, rfl⟩
  | proposal p => exact ⟨rfl, rfl, rfl, rfl⟩
  | agg a => exact ⟨rfl, rfl, rfl, rfl⟩

theorem storeAggAttestation_att (db : MemDB) (u : UnsignedData) :
    (storeAggAttestation db u).1.attDuties = db.attDuties ∧
    (storeAggAttestation db u).1.attPubKeys = db.attPubKeys ∧
    (storeAggAttestation db u).1.attKeysBySlot = db.attKeysBySlot := by
  cases u with
  | agg a =>
    rcases h : db.aggDuties ⟨a.data.slot, htrAttData a.data⟩ with _ | existing
    · simp [storeAggAttestation, h]
    · by_cases hr : htrAttData existing.data = htrAttData a.data <;>
        simp [storeAggAttestation, h, hr]
  | attestation a => exact ⟨rfl, rfl, rfl⟩
  | proposal p => exact ⟨rfl, rfl, rfl⟩
  | contrib c => exact ⟨rfl, rfl, rfl⟩

theorem storeProposerSet_untouched (set : List (PubKey × UnsignedData))
    (db : MemDB) :
    (storeProposerSet db set).1.aggDuties = db.aggDuties ∧
    (storeProposerSet db set).1.attDuties = db.attDuties ∧
    (storeProposerSet db set).1.attPubKeys = db.attPubKeys ∧
    (storeProposerSet db set).1.attKeysBySlot = db.attKeysBySlot := by
  induction set generalizing db with
  | nil => exact ⟨rfl, rfl, rfl, rfl⟩
  | cons p rest ih =>
    rcases h : storeProposal db p.2 with ⟨db1, e1⟩
    have g := storeProposal_untouched db p.2
    rw [h] at g
    cases e1 with
    | some e => simpa [storeProposerSet, h] using g
    | none =>
      have g' := ih db1
      simp only [storeProposerSet, h]
      exact ⟨g'.1.trans g.1, g'.2.1.trans g.2.1, g'.2.2.1.trans g.2.2.1,
        g'.2.2.2.trans g.2.2.2⟩

theorem storeContribSet_untouched (set : List (PubKey × UnsignedData))
    (db : MemDB) :
    (storeContribSet db set).1.aggDuties = db.aggDuties ∧
    (storeContribSet db set).1.attDuties = db.attDuties ∧
    (storeContribSet db set).1.attPubKeys = db.attPubKeys ∧
    (storeContribSet db set).1.attKeysBySlot = db.attKeysBySlot := by
  induction set generalizing db with
  | nil => exact ⟨rfl, rfl, rfl, rfl⟩
  | cons p rest ih =>
    rcases h : storeSyncContribution db p.2 with ⟨db1, e1⟩
    have g := storeSyncContribution_untouched db p.2
    rw [h] at g
    cases e1 with
    | some e => simpa [storeContribSet, h] using g
    | none =>
      have g' := ih db1
      simp only [storeContribSet, h]
      exact ⟨g'.1.trans g.1, g'.2.1.trans g.2.1, g'.2.2.1.trans g.2.2.1,
        g'.2.2.2.trans g.2.2.2⟩

theorem storeAttesterSet_aggDuties (set : List (PubKey × UnsignedData))
    (db : MemDB) :
    (storeAttesterSet db set).1.aggDuties = db.aggDuties := by
  induction set generalizing db with
  | nil => rfl
  | cons p rest ih =>
    rcases h : storeAttestation db p.1 p.2 with ⟨db1, e1⟩
    have g := storeAttestation_aggDuties db p.1 p.2
    rw [h] at g
    cases e1 with
    | some e => simpa [storeAttesterSet, h] using g
    | none =>
      simp only [storeAttesterSet, h]
      exact (ih db1).trans g

theorem storeAggSet_att (set : List (PubKey × UnsignedData)) (db : MemDB) :
    (storeAggSet db set).1.attDuties = db.attDuties ∧
    (storeAggSet db set).1.attPubKeys = db.attPubKeys ∧
    (storeAggSet db set).1.attKeysBySlot = db.attKeysBySlot := by
  induction set generalizing db with
  | nil => exact ⟨rfl, rfl, rfl⟩
  | cons p rest ih =>
    rcases h : storeAggAttestation db p.2 with ⟨db1, e1⟩
    have g := storeAggAttestation_att db p.2
    rw [h] at g
    cases e1 with
    | some e => simpa [storeAggSet, h] using g
    | none =>
      have g' := ih db1
      simp only [storeAggSet, h]
      exact ⟨g'.1.trans g.1, g'.2.1.trans g.2.1, g'.2.2.trans g.2.2⟩

/-- The aggregated-attestation map invariant: every stored entry's data
hash-tree root equals the root component of its key (entries are only ever
inserted under the key derived from their own data). -/
def AggRootInv (db : MemDB) : Prop :=
  ∀ (k : AggKey) (e : VersionedAggregatedAttestation),
    db.aggDuties k = some e → htrAttData e.data = k.root

/-- The global invariant of reachable states: all four waiter registries and
channel logs are well-formed, and the aggregated-attestation map satisfies
its key-root invariant. -/
def Inv (db : MemDB) : Prop :=
  chanOk db.attQueries db.attDeliveries db.nextQueryId ∧
  chanOk db.proQueries db.proDeliveries db.nextQueryId ∧
  chanOk db.aggQueries db.aggDeliveries db.nextQueryId ∧
  chanOk db.contribQueries db.contribDeliveries db.nextQueryId ∧
  AggRootInv db

theorem Inv.transport' {db db' : MemDB} (h : Inv db) (hf : FrameEq db db')
    (ha : AggRootInv db') : Inv db' := by
  obtain ⟨f1, f2, f3, f4, f5, f6, f7, f8, f9, f10⟩ := hf
  obtain ⟨i1, i2, i3, i4, _⟩ := h
  rw [← f1, ← f2, ← f3, ← f4, ← f5, ← f6, ← f7, ← f8, ← f9] at *
  exact ⟨by rw [f1, f5, f9]; exact i1, by rw [f2, f6, f9]; exact i2,
    by rw [f3, f7, f9]; exact i3, by rw [f4, f8, f9]; exact i4, ha⟩

theorem Inv.transport {db db' : MemDB} (h : Inv db) (hf : FrameEq db db')
    (ha : ∀ k, db'.aggDuties k = none ∨ db'.aggDuties k = db.aggDuties k) :
    Inv db' := by
  refine h.transport' hf ?_
  intro k e he
  rcases ha k with hn | heq
  · rw [hn] at he
    exact Option.noConfusion he
  · rw [heq] at he
    exact h.2.2.2.2 k e he

/-- Inserting an aggregate under the key derived from its own data preserves
the key-root property of the map. -/
theorem aggRootInv_insert_map
    (m : AggKey → Option VersionedAggregatedAttestation)
    (hm : ∀ k e, m k = some e → htrAttData e.data = k.root)
    (a : VersionedAggregatedAttestation) :
    ∀ k e, Map.insert m ⟨a.data.slot, htrAttData a.data⟩ a k = some e →
      htrAttData e.data = k.root := by
  intro k e he
  by_cases hk : k = ⟨a.data.slot, htrAttData a.data⟩
  · subst hk
    rw [Map.insert_same] at he
    cases he
    rfl
  · rw [Map.insert_other _ _ _ _ hk] at he
    exact hm k e he

/-- An aggregator store preserves the key-root invariant, on the fresh-insert
path, the equal-root overwrite path and the clash path alike. -/
theorem storeAggAttestation_aggRootInv (db : MemDB) (u : UnsignedData)
    (h : AggRootInv db) : AggRootInv (storeAggAttestation db u).1 := by
  cases u with
  | agg a =>
    intro k e he
    rcases hk : db.aggDuties ⟨a.data.slot, htrAttData a.data⟩ with _ | existing
    · simp only [storeAggAttestation, hk] at he
      exact aggRootInv_insert_map db.aggDuties h a k e he
    · by_cases hr : htrAttData existing.data = htrAttData a.data
      · simp only [storeAggAttestation, hk, hr, ne_eq, not_true_eq_false,
          if_false] at he
        exact aggRootInv_insert_map db.aggDuties h a k e he
      · simp only [storeAggAttestation, hk, hr, ne_eq, not_false_eq_true,
          if_true] at he
        exact h k e he
  | attestation a => exact h
  | proposal p => exact h
  | contrib c => exact h

theorem storeAggSet_aggRootInv (set : List (PubKey × UnsignedData))
    (db : MemDB) (h : AggRootInv db) : AggRootInv (storeAggSet db set).1 := by
  induction set generalizing db with
  | nil => exact h
  | cons p rest ih =>
    rcases hs : storeAggAttestation db p.2 with ⟨db1, e1⟩
    have g := storeAggAttestation_aggRootInv db p.2 h
    rw [hs] at g
    cases e1 with
    | some e =>
      intro k v hv
      rw [show (storeAggSet db (p :: rest)).1 = db1 from by
        simp [storeAggSet, hs]] at hv
      exact g k v hv
    | none =>
      intro k v hv
      rw [show (storeAggSet db (p :: rest)).1 = (storeAggSet db1 rest).1 from by
        simp [storeAggSet, hs]] at hv
      exact ih db1 g k v hv

/-- Deleting a duty only removes aggregate entries or leaves them alone. -/
theorem deleteDuty_aggDuties_sub (db : MemDB) (d : Duty) (k : AggKey) :
    (deleteDuty db d).1.aggDuties k = none ∨
    (deleteDuty db d).1.aggDuties k = db.aggDuties k := by
  cases hd : d.type with
  | proposer => right; simp [deleteDuty, hd]
  | builderProposer => right; simp [deleteDuty, hd]
  | attester =>
    right
    have := (deleteAttKeys_rest (db.attKeysBySlot d.slot) db).2
    simp [deleteDuty, hd, this]
  | aggregator =>
    have := deleteAggKeys_aggDuties (db.aggKeysBySlot d.slot) db k
    by_cases hk : k ∈ db.aggKeysBySlot d.slot
    · left
      simp [deleteDuty, hd, this, hk]
    · right
      simp [deleteDuty, hd, this, hk]
  | syncContribution =>
    right
    have := (deleteContribKeys_rest (db.contribKeysBySlot d.slot) db).2.2.2
    simp [deleteDuty, hd, this]
  | other => right; simp [deleteDuty, hd]

theorem drainExpired_aggDuties_sub (expired : List Duty) (db : MemDB)
    (k : AggKey) :
    (drainExpired db expired).1.aggDuties k = none ∨
    (drainExpired db expired).1.aggDuties k = db.aggDuties k := by
  induction expired generalizing db with
  | nil => right; rfl
  | cons d rest ih =>
    rcases hd : deleteDuty db d with ⟨db1, e1⟩
    have g := deleteDuty_aggDuties_sub db d k
    rw [hd] at g
    cases e1 with
    | some e =>
      rw [show (drainExpired db (d :: rest)).1 = db1 from by
        simp [drainExpired, hd]]
      exact g
    | none =>
      rw [show (drainExpired db (d :: rest)).1 = (drainExpired db1 rest).1
        from by simp [drainExpired, hd]]
      rcases ih db1 with hn | he
      · left; exact hn
      · rcases g with hn | he2
        · left; rw [he, hn]
        · right; rw [he, he2]

theorem storeProposerSet_frame (set : List (PubKey × UnsignedData))
    (db : MemDB) : FrameEq db (storeProposerSet db set).1 := by
  induction set generalizing db with
  | nil => exact FrameEq.refl _
  | cons p rest ih =>
    unfold storeProposerSet
    rcases h : storeProposal db p.2 with ⟨db1, e1⟩
    have f := storeProposal_frame db p.2
    rw [h] at f
    cases e1 with
    | some e => exact f
    | none => exact f.trans (ih db1)

theorem storeAttesterSet_frame (set : List (PubKey × UnsignedData))
    (db : MemDB) : FrameEq db (storeAttesterSet db set).1 := by
  induction set generalizing db with
  | nil => exact FrameEq.refl _
  | cons p rest ih =>
    unfold storeAttesterSet
    rcases h : storeAttestation db p.1 p.2 with ⟨db1, e1⟩
    have f := storeAttestation_frame db p.1 p.2
    rw [h] at f
    cases e1 with
    | some e => exact f
    | none => exact f.trans (ih db1)

theorem storeAggSet_frame (set : List (PubKey × UnsignedData)) (db : MemDB) :
    FrameEq db (storeAggSet db set).1 := by
  induction set generalizing db with
  | nil => exact FrameEq.refl _
  | cons p rest ih =>
    unfold storeAggSet
    rcases h : storeAggAttestation db p.2 with ⟨db1, e1⟩
    have f := storeAggAttestation_frame db p.2
    rw [h] at f
    cases e1 with
    | some e => exact f
    | none => exact f.trans (ih db1)

theorem storeContribSet_frame (set : List (PubKey × UnsignedData))
    (db : MemDB) : FrameEq db (storeContribSet db set).1 := by
  induction set generalizing db with
  | nil => exact FrameEq.refl _
  | cons p rest ih =>
    unfold storeContribSet
    rcases h : storeSyncContribution db p.2 with ⟨db1, e1⟩
    have f := storeSyncContribution_frame db p.2
    rw [h] at f
    cases e1 with
    | some e => exact f
    | none => exact f.trans (ih db1)

theorem inv_resolvePro {db : MemDB} (h : Inv db) : Inv (resolveProQueries db) :=
  ⟨h.1,
   chanOk_resolve db.proDuties db.proQueries db.proDeliveries db.nextQueryId
     h.2.1,
   h.2.2.1, h.2.2.2.1, fun k e he => h.2.2.2.2 k e he⟩

theorem inv_resolveAtt {db : MemDB} (h : Inv db) : Inv (resolveAttQueries db) :=
  ⟨chanOk_resolve db.attDuties db.attQueries db.attDeliveries db.nextQueryId
     h.1,
   h.2.1, h.2.2.1, h.2.2.2.1, fun k e he => h.2.2.2.2 k e he⟩

theorem inv_resolveAgg {db : MemDB} (h : Inv db) : Inv (resolveAggQueries db) :=
  ⟨h.1, h.2.1,
   chanOk_resolve db.aggDuties db.aggQueries db.aggDeliveries db.nextQueryId
     h.2.2.1,
   h.2.2.2.1, fun k e he => h.2.2.2.2 k e he⟩

theorem inv_resolveContrib {db : MemDB} (h : Inv db) :
    Inv (resolveContribQueries db) :=
  ⟨h.1, h.2.1, h.2.2.1,
   chanOk_resolve db.contribDuties db.contribQueries db.contribDeliveries
     db.nextQueryId h.2.2.2.1,
   fun k e he => h.2.2.2.2 k e he⟩

theorem inv_drain (expired : List Duty) (db : MemDB) (h : Inv db) :
    Inv (drainExpired db expired).1 :=
  h.transport (drainExpired_frame expired db)
    (fun k => drainExpired_aggDuties_sub expired db k)

theorem inv_awaitPro (db : MemDB) (slot : Nat) (h : Inv db) :
    Inv (awaitProposalRegister db slot).1 := by
  have h1 : Inv { db with
      proQueries := db.proQueries ++ [⟨db.nextQueryId, slot, false⟩],
      nextQueryId := db.nextQueryId + 1 } :=
    ⟨chanOk_mono_next h.1 (Nat.le_succ _), chanOk_append slot h.2.1,
     chanOk_mono_next h.2.2.1 (Nat.le_succ _),
     chanOk_mono_next h.2.2.2.1 (Nat.le_succ _),
     fun k e he => h.2.2.2.2 k e he⟩
  exact inv_resolvePro h1

theorem inv_awaitAtt (db : MemDB) (slot commIdx : Nat) (h : Inv db) :
    Inv (awaitAttestationRegister db slot commIdx).1 := by
  have h1 : Inv { db with
      attQueries := db.attQueries ++ [⟨db.nextQueryId, ⟨slot, commIdx⟩, false⟩],
      nextQueryId := db.nextQueryId + 1 } :=
    ⟨chanOk_append _ h.1, chanOk_mono_next h.2.1 (Nat.le_succ _),
     chanOk_mono_next h.2.2.1 (Nat.le_succ _),
     chanOk_mono_next h.2.2.2.1 (Nat.le_succ _),
     fun k e he => h.2.2.2.2 k e he⟩
  exact inv_resolveAtt h1

theorem inv_awaitAgg (db : MemDB) (slot : Nat) (root : AttDataInner)
    (h : Inv db) : Inv (awaitAggAttestationRegister db slot root).1 := by
  have h1 : Inv { db with
      aggQueries := db.aggQueries ++ [⟨db.nextQueryId, ⟨slot, root⟩, false⟩],
      nextQueryId := db.nextQueryId + 1 } :=
    ⟨chanOk_mono_next h.1 (Nat.le_succ _),
     chanOk_mono_next h.2.1 (Nat.le_succ _), chanOk_append _ h.2.2.1,
     chanOk_mono_next h.2.2.2.1 (Nat.le_succ _),
     fun k e he => h.2.2.2.2 k e he⟩
  exact inv_resolveAgg h1

theorem inv_awaitContrib (db : MemDB) (slot subcommIdx root : Nat)
    (h : Inv db) :
    Inv (awaitSyncContributionRegister db slot subcommIdx root).1 := by
  have h1 : Inv { db with
      contribQueries :=
        db.contribQueries ++ [⟨db.nextQueryId, ⟨slot, subcommIdx, root⟩, false⟩],
      nextQueryId := db.nextQueryId + 1 } :=
    ⟨chanOk_mono_next h.1 (Nat.le_succ _),
     chanOk_mono_next h.2.1 (Nat.le_succ _),
     chanOk_mono_next h.2.2.1 (Nat.le_succ _), chanOk_append _ h.2.2.2.1,
     fun k e he => h.2.2.2.2 k e he⟩
  exact inv_resolveContrib h1

/-- The global invariant is preserved by every event. -/
theorem inv_applyEvent (db : MemDB) (e : Event) (h : Inv db) :
    Inv (applyEvent db e) := by
  cases e with
  | store duty set ok expired =>
    show Inv (dutyStore db duty set ok expired).1
    cases ok with
    | false => simpa [dutyStore] using h
    | true =>
      cases ht : duty.type with
      | proposer =>
        by_cases hlen : set.length > 1
        · rw [show (dutyStore db duty set true expired).1 = db from by
            simp [dutyStore, ht, hlen]]
          exact h
        · rcases hps : storeProposerSet db set with ⟨db1, e1⟩
          have f := storeProposerSet_frame set db
          have a := (storeProposerSet_untouched set db).1
          rw [hps] at f a
          have hinv1 : Inv db1 := h.transport f fun k => Or.inr (congrFun a k)
          cases e1 with
          | some e =>
            rw [show (dutyStore db duty set true expired).1 = db1 from by
              simp [dutyStore, ht, hlen, hps]]
            exact hinv1
          | none =>
            rw [show (dutyStore db duty set true expired).1 =
                (drainExpired (resolveProQueries db1) expired).1 from by
              simp [dutyStore, ht, hlen, hps]]
            exact inv_drain expired _ (inv_resolvePro hinv1)
      | builderProposer =>
        rw [show (dutyStore db duty set true expired).1 = db from by
          simp [dutyStore, ht]]
        exact h
      | attester =>
        rcases hps : storeAttesterSet db set with ⟨db1, e1⟩
        have f := storeAttesterSet_frame set db
        have a := storeAttesterSet_aggDuties set db
        rw [hps] at f a
        have hinv1 : Inv db1 := h.transport f fun k => Or.inr (congrFun a k)
        cases e1 with
        | some e =>
          rw [show (dutyStore db duty set true expired).1 = db1 from by
            simp [dutyStore, ht, hps]]
          exact hinv1
        | none =>
          rw [show (dutyStore db duty set true expired).1 =
              (drainExpired (resolveAttQueries db1) expired).1 from by
            simp [dutyStore, ht, hps]]
          exact inv_drain expired _ (inv_resolveAtt hinv1)
      | aggregator =>
        rcases hps : storeAggSet db set with ⟨db1, e1⟩
        have f := storeAggSet_frame set db
        have a := storeAggSet_aggRootInv set db h.2.2.2.2
        rw [hps] at f a
        have hinv1 : Inv db1 := h.transport' f a
        cases e1 with
        | some e =>
          rw [show (dutyStore db duty set true expired).1 = db1 from by
            simp [dutyStore, ht, hps]]
          exact hinv1
        | none =>
          rw [show (dutyStore db duty set true expired).1 =
              (drainExpired (resolveAggQueries db1) expired).1 from by
            simp [dutyStore, ht, hps]]
          exact inv_drain expired _ (inv_resolveAgg hinv1)
      | syncContribution =>
        rcases hps : storeContribSet db set with ⟨db1, e1⟩
        have f := storeContribSet_frame set db
        have a := (storeContribSet_untouched set db).1
        rw [hps] at f a
        have hinv1 : Inv db1 := h.transport f fun k => Or.inr (congrFun a k)
        cases e1 with
        | some e =>
          rw [show (dutyStore db duty set true expired).1 = db1 from by
            simp [dutyStore, ht, hps]]
          exact hinv1
        | none =>
          rw [show (dutyStore db duty set true expired).1 =
              (drainExpired (resolveContribQueries db1) expired).1 from by
            simp [dutyStore, ht, hps]]
          exact inv_drain expired _ (inv_resolveContrib hinv1)
      | other =>
        rw [show (dutyStore db duty set true expired).1 = db from by
          simp [dutyStore, ht]]
        exact h
  | awaitPro slot => exact inv_awaitPro db slot h
  | awaitAtt slot commIdx => exact inv_awaitAtt db slot commIdx h
  | awaitAgg slot root => exact inv_awaitAgg db slot root h
  | awaitContrib slot subcommIdx root =>
    exact inv_awaitContrib db slot subcommIdx root h
  | cancelPro id =>
    exact ⟨h.1, chanOk_cancel id h.2.1, h.2.2.1, h.2.2.2.1,
      fun k e he => h.2.2.2.2 k e he⟩
  | cancelAtt id =>
    exact ⟨chanOk_cancel id h.1, h.2.1, h.2.2.1, h.2.2.2.1,
      fun k e he => h.2.2.2.2 k e he⟩
  | cancelAgg id =>
    exact ⟨h.1, h.2.1, chanOk_cancel id h.2.2.1, h.2.2.2.1,
      fun k e he => h.2.2.2.2 k e he⟩
  | cancelContrib id =>
    exact ⟨h.1, h.2.1, h.2.2.1, chanOk_cancel id h.2.2.2.1,
      fun k e he => h.2.2.2.2 k e he⟩
  | shutdownEv =>
    exact ⟨h.1, h.2.1, h.2.2.1, h.2.2.2.1, fun k e he => h.2.2.2.2 k e he⟩

theorem inv_init : Inv initDB := by
  refine ⟨?_, ?_, ?_, ?_, ?_⟩ <;>
    simp [chanOk, initDB, AggRootInv]

/-- Every reachable state satisfies the global invariant. -/
theorem reachable_inv {db : MemDB} (h : Reachable db) : Inv db := by
  induction h with
  | init => exact inv_init
  | step db e hr ih => exact inv_applyEvent db e ih

/-- The attester cross-index invariant of states reachable with coherent
payloads: every stored pubkey is listed under its own slot, every listed key
is a stored pubkey of that slot, the listing has no duplicates, and every
stored attestation template is supported by a stored pubkey at its key. -/
def AttInv (db : MemDB) : Prop :=
  (∀ k : PkKey, db.attPubKeys k ≠ none → k ∈ db.attKeysBySlot k.slot) ∧
  (∀ (s : Nat) (k : PkKey), k ∈ db.attKeysBySlot s →
     k.slot = s ∧ db.attPubKeys k ≠ none) ∧
  (∀ s : Nat, (db.attKeysBySlot s).Nodup) ∧
  (∀ ak : AttKey, db.attDuties ak ≠ none →
     ∃ v, db.attPubKeys ⟨ak.slot, ak.commIdx, v⟩ ≠ none)

theorem attInv_congr {db db' : MemDB} (h : AttInv db)
    (h1 : db'.attDuties = db.attDuties) (h2 : db'.attPubKeys = db.attPubKeys)
    (h3 : db'.attKeysBySlot = db.attKeysBySlot) : AttInv db' := by
  unfold AttInv
  rw [h1, h2, h3]
  exact h

theorem putAttPubKey_attInv (db : MemDB) (pKey : PkKey) (ds : Nat)
    (pk : PubKey) (hslot : pKey.slot = ds) (h : AttInv db) :
    AttInv (putAttPubKey db pKey ds pk).1 := by
  subst hslot
  obtain ⟨h1, h2, h3, h4⟩ := h
  rcases hpk : db.attPubKeys pKey with _ | v
  · rw [show (putAttPubKey db pKey pKey.slot pk).1 =
        { db with attPubKeys := Map.insert db.attPubKeys pKey pk,
                  attKeysBySlot := appendAt db.attKeysBySlot pKey.slot pKey }
        from by simp [putAttPubKey, hpk]]
    refine ⟨?_, ?_, ?_, ?_⟩
    · intro k hk
      have hk' : Map.insert db.attPubKeys pKey pk k ≠ none := hk
      show k ∈ appendAt db.attKeysBySlot pKey.slot pKey k.slot
      by_cases hke : k = pKey
      · subst hke
        simp [appendAt]
      · rw [Map.insert_other _ _ _ _ hke] at hk'
        have hmem := h1 k hk'
        by_cases hs : k.slot = pKey.slot
        · simp only [appendAt, hs, if_pos]
          exact List.mem_append_left _ (hs ▸ hmem)
        · simp only [appendAt, hs, if_false]
          exact hmem
    · intro s k hk
      have hk' : k ∈ appendAt db.attKeysBySlot pKey.slot pKey s := hk
      show k.slot = s ∧ Map.insert db.attPubKeys pKey pk k ≠ none
      by_cases hs : s = pKey.slot
      · subst hs
        simp only [appendAt, if_pos] at hk'
        rcases List.mem_append.mp hk' with hk2 | hk2
        · obtain ⟨hks, hkn⟩ := h2 _ k hk2
          refine ⟨hks, ?_⟩
          by_cases hke : k = pKey
          · subst hke
            simp [Map.insert_same]
          · rw [Map.insert_other _ _ _ _ hke]
            exact hkn
        · rw [List.mem_singleton.mp hk2]
          exact ⟨rfl, by simp [Map.insert_same]⟩
      · simp only [appendAt, hs, if_false] at hk'
        obtain ⟨hks, hkn⟩ := h2 s k hk'
        refine ⟨hks, ?_⟩
        by_cases hke : k = pKey
        · subst hke
          simp [Map.insert_same]
        · rw [Map.insert_other _ _ _ _ hke]
          exact hkn
    · intro s
      show (appendAt db.attKeysBySlot pKey.slot pKey s).Nodup
      by_cases hs : s = pKey.slot
      · subst hs
        simp only [appendAt, if_pos]
        refine List.Nodup.append (h3 _) (List.nodup_singleton _) ?_
        intro a ha1 ha2
        rw [List.mem_singleton.mp ha2] at ha1
        exact (h2 _ pKey ha1).2 hpk
      · simp only [appendAt, hs, if_false]
        exact h3 s
    · intro ak hak
      have hak' : db.attDuties ak ≠ none := hak
      rcases h4 ak hak' with ⟨v', hv'⟩
      refine ⟨v', ?_⟩
      show Map.insert db.attPubKeys pKey pk ⟨ak.slot, ak.commIdx, v'⟩ ≠ none
      by_cases hke : (⟨ak.slot, ak.commIdx, v'⟩ : PkKey) = pKey
      · rw [hke, Map.insert_same]
        simp
      · rw [Map.insert_other _ _ _ _ hke]
        exact hv'
  · by_cases hv : v = pk
    · rw [show (putAttPubKey db pKey pKey.slot pk).1 = db from by
        simp [putAttPubKey, hpk, hv]]
      exact ⟨h1, h2, h3, h4⟩
    · rw [show (putAttPubKey db pKey pKey.slot pk).1 = db from by
        simp [putAttPubKey, hpk, hv]]
      exact ⟨h1, h2, h3, h4⟩

theorem putAttDuty_attInv (db : MemDB) (aKey : AttKey) (d : AttDataInner)
    (h : AttInv db)
    (hsup : ∃ v, db.attPubKeys ⟨aKey.slot, aKey.commIdx, v⟩ ≠ none) :
    AttInv (putAttDuty db aKey d).1 := by
  obtain ⟨h1, h2, h3, h4⟩ := h
  rcases hd : db.attDuties aKey with _ | v
  · rw [show (putAttDuty db aKey d).1 =
        { db with attDuties := Map.insert db.attDuties aKey d } from by
      simp [putAttDuty, hd]]
    refine ⟨h1, h2, h3, ?_⟩
    intro ak hak
    have hak' : Map.insert db.attDuties aKey d ak ≠ none := hak
    by_cases hke : ak = aKey
    · subst hke
      exact hsup
    · rw [Map.insert_other _ _ _ _ hke] at hak'
      exact h4 ak hak'
  · by_cases hv : v = d
    · rw [show (putAttDuty db aKey d).1 = db from by simp [putAttDuty, hd, hv]]
      exact ⟨h1, h2, h3, h4⟩
    · rw [show (putAttDuty db aKey d).1 = db from by simp [putAttDuty, hd, hv]]
      exact ⟨h1, h2, h3, h4⟩

theorem storeAttestation_attInv (db : MemDB) (pk : PubKey) (u : UnsignedData)
    (hgood : GoodUnsigned u) (h : AttInv db) :
    AttInv (storeAttestation db pk u).1 := by
  cases u with
  | attestation a =>
    have hg : a.data.slot = a.duty.slot := hgood
    unfold storeAttestation
    rcases h1 : putAttPubKey db ⟨a.data.slot, a.duty.committeeIndex,
        a.duty.validatorIndex⟩ a.duty.slot pk with ⟨db1, e1⟩
    have i1 : AttInv db1 := by
      have hi := putAttPubKey_attInv db ⟨a.data.slot, a.duty.committeeIndex,
        a.duty.validatorIndex⟩ a.duty.slot pk hg ⟨h.1, h.2.1, h.2.2.1, h.2.2.2⟩
      rw [h1] at hi
      exact hi
    cases e1 with
    | some e => simpa [h1] using i1
    | none =>
      have s1 : db1.attPubKeys ⟨a.data.slot, a.duty.committeeIndex,
          a.duty.validatorIndex⟩ = some pk := by
        have hs := putAttPubKey_ok db ⟨a.data.slot, a.duty.committeeIndex,
          a.duty.validatorIndex⟩ a.duty.slot pk (by rw [h1])
        rw [h1] at hs
        exact hs
      rcases h2 : putAttDuty db1 ⟨a.data.slot, a.duty.committeeIndex⟩ a.data
        with ⟨db2, e2⟩
      have i2 : AttInv db2 := by
        have hi := putAttDuty_attInv db1 ⟨a.data.slot, a.duty.committeeIndex⟩
          a.data i1 ⟨a.duty.validatorIndex, by
            show db1.attPubKeys ⟨a.data.slot, a.duty.committeeIndex,
              a.duty.validatorIndex⟩ ≠ none
            rw [s1]
            simp⟩
        rw [h2] at hi
        exact hi
      cases e2 with
      | some e => simpa [h1, h2] using i2
      | none =>
        rcases h3 : putAttPubKey db2 ⟨a.data.slot, 0, a.duty.validatorIndex⟩
            a.duty.slot pk with ⟨db3, e3⟩
        have i3 : AttInv db3 := by
          have hi := putAttPubKey_attInv db2 ⟨a.data.slot, 0,
            a.duty.validatorIndex⟩ a.duty.slot pk hg i2
          rw [h3] at hi
          exact hi
        cases e3 with
        | some e => simpa [h1, h2, h3] using i3
        | none =>
          have s3 : db3.attPubKeys ⟨a.data.slot, 0, a.duty.validatorIndex⟩ =
              some pk := by
            have hs := putAttPubKey_ok db2 ⟨a.data.slot, 0,
              a.duty.validatorIndex⟩ a.duty.slot pk (by rw [h3])
            rw [h3] at hs
            exact hs
          have i4 := putAttDuty_attInv db3 ⟨a.data.slot, 0⟩ a.data i3
            ⟨a.duty.validatorIndex, by
              show db3.attPubKeys ⟨a.data.slot, 0, a.duty.validatorIndex⟩ ≠
                none
              rw [s3]
              simp⟩
          simpa [h1, h2, h3] using i4
  | proposal p => exact h
  | agg a => exact h
  | contrib c => exact h

theorem storeAttesterSet_attInv (set : List (PubKey × UnsignedData))
    (db : MemDB) (h : AttInv db) (hg : ∀ p ∈ set, GoodUnsigned p.2) :
    AttInv (storeAttesterSet db set).1 := by
  induction set generalizing db with
  | nil => exact h
  | cons p rest ih =>
    rcases hs : storeAttestation db p.1 p.2 with ⟨db1, e1⟩
    have g := storeAttestation_attInv db p.1 p.2
      (hg p (List.mem_cons_self p rest)) h
    rw [hs] at g
    cases e1 with
    | some e => simpa [storeAttesterSet, hs] using g
    | none =>
      have g' := ih db1 g fun q hq => hg q (List.mem_cons_of_mem p hq)
      simpa [storeAttesterSet, hs] using g'

theorem deleteDuty_attInv (db : MemDB) (d : Duty) (h : AttInv db) :
    AttInv (deleteDuty db d).1 := by
  obtain ⟨h1, h2, h3, h4⟩ := h
  cases ht : d.type with
  | proposer =>
    exact attInv_congr ⟨h1, h2, h3, h4⟩ (by simp [deleteDuty, ht])
      (by simp [deleteDuty, ht]) (by simp [deleteDuty, ht])
  | builderProposer =>
    exact attInv_congr ⟨h1, h2, h3, h4⟩ (by simp [deleteDuty, ht])
      (by simp [deleteDuty, ht]) (by simp [deleteDuty, ht])
  | other =>
    exact attInv_congr ⟨h1, h2, h3, h4⟩ (by simp [deleteDuty, ht])
      (by simp [deleteDuty, ht]) (by simp [deleteDuty, ht])
  | aggregator =>
    exact attInv_congr ⟨h1, h2, h3, h4⟩
      (by simp [deleteDuty, ht, (deleteAggKeys_rest _ db).1])
      (by simp [deleteDuty, ht, (deleteAggKeys_rest _ db).2.1])
      (by simp [deleteDuty, ht, (deleteAggKeys_rest _ db).2.2])
  | syncContribution =>
    exact attInv_congr ⟨h1, h2, h3, h4⟩
      (by simp [deleteDuty, ht, (deleteContribKeys_rest _ db).1])
      (by simp [deleteDuty, ht, (deleteContribKeys_rest _ db).2.1])
      (by simp [deleteDuty, ht, (deleteContribKeys_rest _ db).2.2.1])
  | attester =>
    have hdu : ∀ ak, (deleteDuty db d).1.attDuties ak =
        (deleteAttKeys db (db.attKeysBySlot d.slot)).attDuties ak := by
      intro ak
      simp [deleteDuty, ht]
    have hpk : ∀ k, (deleteDuty db d).1.attPubKeys k =
        (deleteAttKeys db (db.attKeysBySlot d.slot)).attPubKeys k := by
      intro k
      simp [deleteDuty, ht]
    have hks : ∀ s, (deleteDuty db d).1.attKeysBySlot s =
        clearAt db.attKeysBySlot d.slot s := by
      intro s
      simp [deleteDuty, ht, clearAt, (deleteAttKeys_rest _ db).1]
    refine ⟨?_, ?_, ?_, ?_⟩
    · intro k hk
      rw [hpk k, deleteAttKeys_attPubKeys] at hk
      by_cases hmem : k ∈ db.attKeysBySlot d.slot
      · rw [if_pos hmem] at hk
        exact absurd rfl hk
      · rw [if_neg hmem] at hk
        have hm := h1 k hk
        have hne : k.slot ≠ d.slot := by
          intro he
          exact hmem (he ▸ hm)
        rw [hks k.slot]
        simp only [clearAt, hne, if_false]
        exact hm
    · intro s k hk
      rw [hks s] at hk
      by_cases hs : s = d.slot
      · rw [hs] at hk
        simp [clearAt] at hk
      · simp only [clearAt, hs, if_false] at hk
        obtain ⟨hks', hkn⟩ := h2 s k hk
        refine ⟨hks', ?_⟩
        rw [hpk k, deleteAttKeys_attPubKeys]
        have hmem : k ∉ db.attKeysBySlot d.slot := by
          intro hm
          exact hs (hks'.symm.trans (h2 d.slot k hm).1)
        rw [if_neg hmem]
        exact hkn
    · intro s
      rw [hks s]
      by_cases hs : s = d.slot
      · rw [hs]
        simp [clearAt]
      · simp only [clearAt, hs, if_false]
        exact h3 s
    · intro ak hak
      rw [hdu ak, deleteAttKeys_attDuties] at hak
      by_cases hex : ∃ k ∈ db.attKeysBySlot d.slot,
          (⟨k.slot, k.commIdx⟩ : AttKey) = ak
      · rw [if_pos hex] at hak
        exact absurd rfl hak
      · rw [if_neg hex] at hak
        rcases h4 ak hak with ⟨v, hv⟩
        refine ⟨v, ?_⟩
        rw [hpk _, deleteAttKeys_attPubKeys]
        have hmem : (⟨ak.slot, ak.commIdx, v⟩ : PkKey) ∉
            db.attKeysBySlot d.slot := by
          intro hm
          exact hex ⟨⟨ak.slot, ak.commIdx, v⟩, hm, rfl⟩
        rw [if_neg hmem]
        exact hv

theorem drainExpired_attInv (expired : List Duty) (db : MemDB)
    (h : AttInv db) : AttInv (drainExpired db expired).1 := by
  induction expired generalizing db with
  | nil => exact h
  | cons d rest ih =>
    rcases hd : deleteDuty db d with ⟨db1, e1⟩
    have g := deleteDuty_attInv db d h
    rw [hd] at g
    cases e1 with
    | some e => simpa [drainExpired, hd] using g
    | none => simpa [drainExpired, hd] using ih db1 g

/-- The attester cross-index invariant is preserved by every event whose
attester payloads are coherent. -/
theorem attInv_applyEvent (db : MemDB) (e : Event) (hg : GoodEvent e)
    (h : AttInv db) : AttInv (applyEvent db e) := by
  cases e with
  | store duty set ok expired =>
    show AttInv (dutyStore db duty set ok expired).1
    cases ok with
    | false => simpa [dutyStore] using h
    | true =>
      cases ht : duty.type with
      | proposer =>
        by_cases hlen : set.length > 1
        · rw [show (dutyStore db duty set true expired).1 = db from by
            simp [dutyStore, ht, hlen]]
          exact h
        · rcases hps : storeProposerSet db set with ⟨db1, e1⟩
          have a := storeProposerSet_untouched set db
          rw [hps] at a
          have hinv1 : AttInv db1 := attInv_congr h a.2.1 a.2.2.1 a.2.2.2
          cases e1 with
          | some e =>
            rw [show (dutyStore db duty set true expired).1 = db1 from by
              simp [dutyStore, ht, hlen, hps]]
            exact hinv1
          | none =>
            rw [show (dutyStore db duty set true expired).1 =
                (drainExpired (resolveProQueries db1) expired).1 from by
              simp [dutyStore, ht, hlen, hps]]
            exact drainExpired_attInv expired _
              (attInv_congr hinv1 rfl rfl rfl)
      | builderProposer =>
        rw [show (dutyStore db duty set true expired).1 = db from by
          simp [dutyStore, ht]]
        exact h
      | attester =>
        rcases hps : storeAttesterSet db set with ⟨db1, e1⟩
        have hinv1 : AttInv db1 := by
          have hi := storeAttesterSet_attInv set db h hg
          rw [hps] at hi
          exact hi
        cases e1 with
        | some e =>
          rw [show (dutyStore db duty set true expired).1 = db1 from by
            simp [dutyStore, ht, hps]]
          exact hinv1
        | none =>
          rw [show (dutyStore db duty set true expired).1 =
              (drainExpired (resolveAttQueries db1) expired).1 from by
            simp [dutyStore, ht, hps]]
          exact drainExpired_attInv expired _ (attInv_congr hinv1 rfl rfl rfl)
      | aggregator =>
        rcases hps : storeAggSet db set with ⟨db1, e1⟩
        have a := storeAggSet_att set db
        rw [hps] at a
        have hinv1 : AttInv db1 := attInv_congr h a.1 a.2.1 a.2.2
        cases e1 with
        | some e =>
          rw [show (dutyStore db duty set true expired).1 = db1 from by
            simp [dutyStore, ht, hps]]
          exact hinv1
        | none =>
          rw [show (dutyStore db duty set true expired).1 =
              (drainExpired (resolveAggQueries db1) expired).1 from by
            simp [dutyStore, ht, hps]]
          exact drainExpired_attInv expired _ (attInv_congr hinv1 rfl rfl rfl)
      | syncContribution =>
        rcases hps : storeContribSet db set with ⟨db1, e1⟩
        have a := storeContribSet_untouched set db
        rw [hps] at a
        have hinv1 : AttInv db1 := attInv_congr h a.2.1 a.2.2.1 a.2.2.2
        cases e1 with
        | some e =>
          rw [show (dutyStore db duty set true expired).1 = db1 from by
            simp [dutyStore, ht, hps]]
          exact hinv1
        | none =>
          rw [show (dutyStore db duty set true expired).1 =
              (drainExpired (resolveContribQueries db1) expired).1 from by
            simp [dutyStore, ht, hps]]
          exact drainExpired_attInv expired _ (attInv_congr hinv1 rfl rfl rfl)
      | other =>
        rw [show (dutyStore db duty set true expired).1 = db from by
          simp [dutyStore, ht]]
        exact h
  | awaitPro slot => exact attInv_congr h rfl rfl rfl
  | awaitAtt slot commIdx => exact attInv_congr h rfl rfl rfl
  | awaitAgg slot root => exact attInv_congr h rfl rfl rfl
  | awaitContrib slot subcommIdx root => exact attInv_congr h rfl rfl rfl
  | cancelPro id => exact attInv_congr h rfl rfl rfl
  | cancelAtt id => exact attInv_congr h rfl rfl rfl
  | cancelAgg id => exact attInv_congr h rfl rfl rfl
  | cancelContrib id => exact attInv_congr h rfl rfl rfl
  | shutdownEv => exact attInv_congr h rfl rfl rfl

theorem attInv_init : AttInv initDB := by
  refine ⟨?_, ?_, ?_, ?_⟩ <;> simp [initDB]

/-- Every state reachable with coherent attester payloads satisfies the
attester cross-index invariant. -/
theorem goodReachable_attInv {db : MemDB} (h : GoodReachable db) :
    AttInv db := by
  induction h with
  | init => exact attInv_init
  | step db e hr hg ih => exact attInv_applyEvent db e hg ih

theorem goodReachable_reachable {db : MemDB} (h : GoodReachable db) :
    Reachable db := by
  induction h with
  | init => exact Reachable.init
  | step db e hr hg ih => exact Reachable.step db e ih

theorem VersionedProposal.root_inj {p q : VersionedProposal}
    (h : p.root = q.root) : p = q := by
  cases p
  cases q
  simpa [VersionedProposal.root, Prod.ext_iff, VersionedProposal.mk.injEq]
    using h

/-- A successful proposer store leaves the stored proposal under its slot
(freshly inserted, or the identical pre-existing entry). -/
theorem storeProposal_ok (db : MemDB) (p : VersionedProposal)
    (h : (storeProposal db (.proposal p)).2 = none) :
    (storeProposal db (.proposal p)).1.proDuties p.slot = some p := by
  rcases hd : db.proDuties p.slot with _ | existing
  · simp [storeProposal, hd, Map.insert_same]
  · by_cases hr : existing.root = p.root
    · have he : existing = p := VersionedProposal.root_inj hr
      subst he
      simp [storeProposal, hd, hr]
    · exfalso
      simp [storeProposal, hd, hr] at h

/-- A proposer resolver pass writes the stored value to every pending
non-cancelled query whose key is present. -/
theorem resolvePro_delivers (db : MemDB) (q : Query Nat)
    (v : VersionedProposal) (hq : q ∈ db.proQueries) (hc : q.cancel = false)
    (hv : db.proDuties q.key = some v) :
    (q.id, v) ∈ (resolveProQueries db).proDeliveries := by
  show (q.id, v) ∈ db.proDeliveries ++ (resolveList db.proDuties db.proQueries).2
  apply List.mem_append_right
  rw [resolveList_snd]
  exact List.mem_filterMap.mpr ⟨q, hq, by simp [hc, hv]⟩

/-- An attester resolver pass writes the stored value to every pending
non-cancelled query whose key is present. -/
theorem resolveAtt_delivers (db : MemDB) (q : Query AttKey)
    (v : AttDataInner) (hq : q ∈ db.attQueries) (hc : q.cancel = false)
    (hv : db.attDuties q.key = some v) :
    (q.id, v) ∈ (resolveAttQueries db).attDeliveries := by
  show (q.id, v) ∈ db.attDeliveries ++ (resolveList db.attDuties db.attQueries).2
  apply List.mem_append_right
  rw [resolveList_snd]
  exact List.mem_filterMap.mpr ⟨q, hq, by simp [hc, hv]⟩

/-- An aggregator resolver pass writes the stored value to every pending
non-cancelled query whose key is present. -/
theorem resolveAgg_delivers (db : MemDB) (q : Query AggKey)
    (v : VersionedAggregatedAttestation) (hq : q ∈ db.aggQueries)
    (hc : q.cancel = false) (hv : db.aggDuties q.key = some v) :
    (q.id, v) ∈ (resolveAggQueries db).aggDeliveries := by
  show (q.id, v) ∈ db.aggDeliveries ++ (resolveList db.aggDuties db.aggQueries).2
  apply List.mem_append_right
  rw [resolveList_snd]
  exact List.mem_filterMap.mpr ⟨q, hq, by simp [hc, hv]⟩

/-- Registering an `AwaitProposal` while the payload is present delivers it
to the new query's channel during the registration pass. -/
theorem awaitProposalRegister_hit (db : MemDB) (slot : Nat)
    (v : VersionedProposal) (hv : db.proDuties slot = some v) :
    ((awaitProposalRegister db slot).2, v) ∈
      (awaitProposalRegister db slot).1.proDeliveries := by
  show (db.nextQueryId, v) ∈ (resolveProQueries
    { db with proQueries := db.proQueries ++ [⟨db.nextQueryId, slot, false⟩],
              nextQueryId := db.nextQueryId + 1 }).proDeliveries
  exact resolvePro_delivers _ ⟨db.nextQueryId, slot, false⟩ v
    (List.mem_append_right _ (List.mem_singleton_self _)) rfl hv

/-- Registering an `AwaitAttestation` while the template is present delivers
it to the new query's channel during the registration pass. -/
theorem awaitAttestationRegister_hit (db : MemDB) (slot commIdx : Nat)
    (v : AttDataInner) (hv : db.attDuties ⟨slot, commIdx⟩ = some v) :
    ((awaitAttestationRegister db slot commIdx).2, v) ∈
      (awaitAttestationRegister db slot commIdx).1.attDeliveries := by
  show (db.nextQueryId, v) ∈ (resolveAttQueries
    { db with attQueries :=
        db.attQueries ++ [⟨db.nextQueryId, ⟨slot, commIdx⟩, false⟩],
              nextQueryId := db.nextQueryId + 1 }).attDeliveries
  exact resolveAtt_delivers _ ⟨db.nextQueryId, ⟨slot, commIdx⟩, false⟩ v
    (List.mem_append_right _ (List.mem_singleton_self _)) rfl hv

/-- Registering an `AwaitAggAttestation` while the aggregate is present
delivers it to the new query's channel during the registration pass. -/
theorem awaitAggRegister_hit (db : MemDB) (slot : Nat) (root : AttDataInner)
    (v : VersionedAggregatedAttestation)
    (hv : db.aggDuties ⟨slot, root⟩ = some v) :
    ((awaitAggAttestationRegister db slot root).2, v) ∈
      (awaitAggAttestationRegister db slot root).1.aggDeliveries := by
  show (db.nextQueryId, v) ∈ (resolveAggQueries
    { db with aggQueries :=
        db.aggQueries ++ [⟨db.nextQueryId, ⟨slot, root⟩, false⟩],
              nextQueryId := db.nextQueryId + 1 }).aggDeliveries
  exact resolveAgg_delivers _ ⟨db.nextQueryId, ⟨slot, root⟩, false⟩ v
    (List.mem_append_right _ (List.mem_singleton_self _)) rfl hv

/-- C1: for every successful proposer `Store` of payload `p`, every pending
non-cancelled waiter on `p`'s slot has been delivered the stored payload by
the time `Store` returns; when the store evicts nothing the payload is in
the map, and any `AwaitProposal` registration against a state holding the
payload is delivered it immediately during its registration-time resolution
pass (so its response branch is ready in the final select). -/
theorem c1_proposer_store_then_await (db : MemDB) (duty : Duty) (pk : PubKey)
    (p : VersionedProposal) (expired : List Duty)
    (hduty : duty.type = DutyType.proposer)
    (hok : (dutyStore db duty [(pk, .proposal p)] true expired).2 = none) :
    (∀ q ∈ db.proQueries, q.cancel = false → q.key = p.slot →
       (q.id, p) ∈
         (dutyStore db duty [(pk, .proposal p)] true expired).1.proDeliveries) ∧
    (expired = [] →
       (dutyStore db duty [(pk, .proposal p)] true expired).1.proDuties p.slot =
         some p) ∧
    (∀ dbr : MemDB, dbr.proDuties p.slot = some p →
       ((awaitProposalRegister dbr p.slot).2, p) ∈
         (awaitProposalRegister dbr p.slot).1.proDeliveries ∧
       selectReady (awaitProposalRegister dbr p.slot).1.proDeliveries
         (awaitProposalRegister dbr p.slot).1.shutdownClosed false
         (awaitProposalRegister dbr p.slot).2 (.delivered p)) := by
  rcases hsp : storeProposal db (.proposal p) with ⟨db1, e1⟩
  have hframe := storeProposal_frame db (.proposal p)
  rw [hsp] at hframe
  cases e1 with
  | some e =>
    exfalso
    rw [show (dutyStore db duty [(pk, .proposal p)] true expired).2 = some e
        from by simp [dutyStore, hduty, storeProposerSet, hsp]] at hok
    exact Option.noConfusion hok
  | none =>
    have hds : (dutyStore db duty [(pk, .proposal p)] true expired).1 =
        (drainExpired (resolveProQueries db1) expired).1 := by
      simp [dutyStore, hduty, storeProposerSet, hsp]
    have hsome : db1.proDuties p.slot = some p := by
      have hs := storeProposal_ok db p (by rw [hsp])
      rw [hsp] at hs
      exact hs
    have hdrainDel :=
      (drainExpired_frame expired (resolveProQueries db1)).2.2.2.2.2.1
    refine ⟨?_, ?_, ?_⟩
    · intro q hq hc hk
      rw [hds, hdrainDel]
      apply resolvePro_delivers db1 q p ?_ hc ?_
      · rw [hframe.2.1]
        exact hq
      · rw [hk]
        exact hsome
    · intro hexp
      subst hexp
      rw [hds]
      exact hsome
    · intro dbr hdbr
      exact ⟨awaitProposalRegister_hit dbr p.slot p hdbr,
        awaitProposalRegister_hit dbr p.slot p hdbr⟩

def dbC1 : MemDB := applyEvent initDB (.awaitPro 100)

theorem c1_witness :
    (dutyStore dbC1 ⟨100, DutyType.proposer⟩
      [(0, .proposal ⟨100, 42⟩)] true []).2 = none ∧
    (0, (⟨100, 42⟩ : VersionedProposal)) ∈
      (dutyStore dbC1 ⟨100, DutyType.proposer⟩
        [(0, .proposal ⟨100, 42⟩)] true []).1.proDeliveries ∧
    ((awaitProposalRegister (dutyStore dbC1 ⟨100, DutyType.proposer⟩
        [(0, .proposal ⟨100, 42⟩)] true []).1 100).2,
      (⟨100, 42⟩ : VersionedProposal)) ∈
      (awaitProposalRegister (dutyStore dbC1 ⟨100, DutyType.proposer⟩
        [(0, .proposal ⟨100, 42⟩)] true []).1 100).1.proDeliveries := by
  refine ⟨by decide, ?_, ?_⟩
  · exact (c1_proposer_store_then_await dbC1 ⟨100, DutyType.proposer⟩ 0
      ⟨100, 42⟩ [] rfl (by decide)).1 ⟨0, 100, false⟩ (by decide) rfl rfl
  · exact ((c1_proposer_store_then_await dbC1 ⟨100, DutyType.proposer⟩ 0
      ⟨100, 42⟩ [] rfl (by decide)).2.2
      (dutyStore dbC1 ⟨100, DutyType.proposer⟩
        [(0, .proposal ⟨100, 42⟩)] true []).1 (by decide)).1

/-- C2: once a proposer or sync-contribution entry is present, a second store
under the same key with a different content hash fails with the clashing
error and leaves the whole state unchanged, while a second store with an
equal content hash is a no-op success that keeps the stored entry. -/
theorem c2_content_hash_immutable :
    (∀ (db : MemDB) (p e : VersionedProposal), db.proDuties p.slot = some e →
       (e.root ≠ p.root →
          storeProposal db (.proposal p) = (db, some DBErr.clashingBlocks)) ∧
       (e.root = p.root → storeProposal db (.proposal p) = (db, none))) ∧
    (∀ (db : MemDB) (c e : SyncCommitteeContribution),
       db.contribDuties ⟨c.slot, c.subcommitteeIndex, c.beaconBlockRoot⟩ =
         some e →
       (e.htr ≠ c.htr →
          storeSyncContribution db (.contrib c) =
            (db, some DBErr.clashingSyncContributions)) ∧
       (e.htr = c.htr → storeSyncContribution db (.contrib c) = (db, none))) := by
  constructor
  · intro db p e he
    constructor
    · intro hne
      simp [storeProposal, he, hne]
    · intro heq
      simp [storeProposal, he, heq]
  · intro db c e he
    constructor
    · intro hne
      simp [storeSyncContribution, he, hne]
    · intro heq
      simp [storeSyncContribution, he, heq]

def dbC2p : MemDB := (storeProposal initDB (.proposal ⟨5, 1⟩)).1

def dbC2c : MemDB :=
  (storeSyncContribution initDB (.contrib ⟨11, 0, 255, 1⟩)).1

theorem c2_witness :
    storeProposal dbC2p (.proposal ⟨5, 2⟩) =
      (dbC2p, some DBErr.clashingBlocks) ∧
    storeProposal dbC2p (.proposal ⟨5, 1⟩) = (dbC2p, none) ∧
    storeSyncContribution dbC2c (.contrib ⟨11, 0, 255, 2⟩) =
      (dbC2c, some DBErr.clashingSyncContributions) ∧
    storeSyncContribution dbC2c (.contrib ⟨11, 0, 255, 1⟩) = (dbC2c, none) :=
  ⟨(c2_content_hash_immutable.1 dbC2p ⟨5, 2⟩ ⟨5, 1⟩ (by decide)).1 (by decide),
   (c2_content_hash_immutable.1 dbC2p ⟨5, 1⟩ ⟨5, 1⟩ (by decide)).2 rfl,
   (c2_content_hash_immutable.2 dbC2c ⟨11, 0, 255, 2⟩ ⟨11, 0, 255, 1⟩
     (by decide)).1 (by decide),
   (c2_content_hash_immutable.2 dbC2c ⟨11, 0, 255, 1⟩ ⟨11, 0, 255, 1⟩
     (by decide)).2 rfl⟩

/-- C3: on an aggregator store whose key already has an entry, an equal data
root between the stored and provided entries makes the provided entry replace
the stored one, and differing roots fail with the clashing-data-root error
leaving the state unchanged; a later `AwaitAggregatedAttestation` at a key
holding an aggregate is delivered that latest aggregate during registration,
and the value returned after the delivery clone equals it. -/
theorem c3_agg_refinement :
    (∀ (db : MemDB) (a e : VersionedAggregatedAttestation),
       db.aggDuties ⟨a.data.slot, htrAttData a.data⟩ = some e →
       (htrAttData e.data = htrAttData a.data →
          storeAggAttestation db (.agg a) =
            ({ db with aggDuties :=
                 Map.insert db.aggDuties ⟨a.data.slot, htrAttData a.data⟩ a },
             none)) ∧
       (htrAttData e.data ≠ htrAttData a.data →
          storeAggAttestation db (.agg a) =
            (db, some DBErr.clashingDataRoot))) ∧
    (∀ (db : MemDB) (slot : Nat) (root : AttDataInner)
       (a : VersionedAggregatedAttestation),
       db.aggDuties ⟨slot, root⟩ = some a →
       ((awaitAggAttestationRegister db slot root).2, a) ∈
         (awaitAggAttestationRegister db slot root).1.aggDeliveries ∧
       a.clone = a) := by
  constructor
  · intro db a e he
    constructor
    · intro heq
      simp [storeAggAttestation, he, heq]
    · intro hne
      simp [storeAggAttestation, he, hne]
  · intro db slot root a ha
    exact ⟨awaitAggRegister_hit db slot root a ha, rfl⟩

def aggA1 : VersionedAggregatedAttestation := ⟨⟨9, 0⟩, 1⟩

def aggA2 : VersionedAggregatedAttestation := ⟨⟨9, 0⟩, 3⟩

def dbC3 : MemDB := (storeAggAttestation initDB (.agg aggA1)).1

def dbC3x : MemDB :=
  { initDB with
    aggDuties := Map.insert initDB.aggDuties ⟨9, ⟨9, 0⟩⟩ ⟨⟨9, 5⟩, 1⟩ }

theorem c3_witness :
    storeAggAttestation dbC3 (.agg aggA2) =
      ({ dbC3 with
         aggDuties := Map.insert dbC3.aggDuties ⟨9, ⟨9, 0⟩⟩ aggA2 }, none) ∧
    ((awaitAggAttestationRegister (storeAggAttestation dbC3 (.agg aggA2)).1
        9 ⟨9, 0⟩).2, aggA2) ∈
      (awaitAggAttestationRegister (storeAggAttestation dbC3 (.agg aggA2)).1
        9 ⟨9, 0⟩).1.aggDeliveries ∧
    storeAggAttestation dbC3x (.agg aggA1) =
      (dbC3x, some DBErr.clashingDataRoot) :=
  ⟨(c3_agg_refinement.1 dbC3 aggA2 aggA1 (by decide)).1 (by decide),
   (c3_agg_refinement.2 (storeAggAttestation dbC3 (.agg aggA2)).1 9 ⟨9, 0⟩
     aggA2 (by decide)).1,
   (c3_agg_refinement.1 dbC3x aggA1 ⟨⟨9, 5⟩, 1⟩ (by decide)).2 (by decide)⟩

/-- C4: after a successful attester store with committee index `c`, slot `s`
and validator `v`, the template sits under both `(s, c)` and `(s, 0)`, the
pubkey sits under both `(s, c, v)` and `(s, 0, v)`, `PubKeyByAttestation`
agrees on both committee indices, and an `AwaitAttestation` registration on
any committee index holding the template is delivered it immediately. -/
theorem c4_attester_duplication (db : MemDB) (pk : PubKey)
    (a : AttestationData)
    (hok : (storeAttestation db pk (.attestation a)).2 = none) :
    (storeAttestation db pk (.attestation a)).1.attDuties
        ⟨a.data.slot, a.duty.committeeIndex⟩ = some a.data ∧
    (storeAttestation db pk (.attestation a)).1.attDuties ⟨a.data.slot, 0⟩ =
      some a.data ∧
    (storeAttestation db pk (.attestation a)).1.attPubKeys
        ⟨a.data.slot, a.duty.committeeIndex, a.duty.validatorIndex⟩ =
      some pk ∧
    (storeAttestation db pk (.attestation a)).1.attPubKeys
        ⟨a.data.slot, 0, a.duty.validatorIndex⟩ = some pk ∧
    pubKeyByAttestation (storeAttestation db pk (.attestation a)).1
        a.data.slot a.duty.committeeIndex a.duty.validatorIndex = .ok pk ∧
    pubKeyByAttestation (storeAttestation db pk (.attestation a)).1
        a.data.slot 0 a.duty.validatorIndex = .ok pk ∧
    (∀ c : Nat,
       (storeAttestation db pk (.attestation a)).1.attDuties
           ⟨a.data.slot, c⟩ = some a.data →
       ((awaitAttestationRegister (storeAttestation db pk (.attestation a)).1
           a.data.slot c).2, a.data) ∈
         (awaitAttestationRegister (storeAttestation db pk (.attestation a)).1
           a.data.slot c).1.attDeliveries) := by
  rcases h1 : putAttPubKey db ⟨a.data.slot, a.duty.committeeIndex,
      a.duty.validatorIndex⟩ a.duty.slot pk with ⟨db1, e1⟩
  cases e1 with
  | some e =>
    exfalso
    rw [show (storeAttestation db pk (.attestation a)).2 = some e from by
      simp [storeAttestation, h1]] at hok
    exact Option.noConfusion hok
  | none =>
    have f1 : db1.attPubKeys ⟨a.data.slot, a.duty.committeeIndex,
        a.duty.validatorIndex⟩ = some pk := by
      have hs := putAttPubKey_ok db ⟨a.data.slot, a.duty.committeeIndex,
        a.duty.validatorIndex⟩ a.duty.slot pk (by rw [h1])
      rw [h1] at hs
      exact hs
    rcases h2 : putAttDuty db1 ⟨a.data.slot, a.duty.committeeIndex⟩ a.data
      with ⟨db2, e2⟩
    cases e2 with
    | some e =>
      exfalso
      rw [show (storeAttestation db pk (.attestation a)).2 = some e from by
        simp [storeAttestation, h1, h2]] at hok
      exact Option.noConfusion hok
    | none =>
      have f2 : db2.attDuties ⟨a.data.slot, a.duty.committeeIndex⟩ =
          some a.data := by
        have hs := putAttDuty_ok db1 ⟨a.data.slot, a.duty.committeeIndex⟩
          a.data (by rw [h2])
        rw [h2] at hs
        exact hs
      have f2pk : db2.attPubKeys = db1.attPubKeys := by
        have hs := (putAttDuty_attPubKeys db1
          ⟨a.data.slot, a.duty.committeeIndex⟩ a.data).1
        rw [h2] at hs
        exact hs
      rcases h3 : putAttPubKey db2 ⟨a.data.slot, 0, a.duty.validatorIndex⟩
          a.duty.slot pk with ⟨db3, e3⟩
      cases e3 with
      | some e =>
        exfalso
        rw [show (storeAttestation db pk (.attestation a)).2 = some e from by
          simp [storeAttestation, h1, h2, h3]] at hok
        exact Option.noConfusion hok
      | none =>
        have f3 : db3.attPubKeys ⟨a.data.slot, 0, a.duty.validatorIndex⟩ =
            some pk := by
          have hs := putAttPubKey_ok db2 ⟨a.data.slot, 0,
            a.duty.validatorIndex⟩ a.duty.slot pk (by rw [h3])
          rw [h3] at hs
          exact hs
        have f3a : db3.attPubKeys ⟨a.data.slot, a.duty.committeeIndex,
            a.duty.validatorIndex⟩ = some pk := by
          have hs := putAttPubKey_mono db2 ⟨a.data.slot, 0,
            a.duty.validatorIndex⟩ a.duty.slot pk ⟨a.data.slot,
            a.duty.committeeIndex, a.duty.validatorIndex⟩ pk
            (by rw [f2pk]; exact f1)
          rw [h3] at hs
          exact hs
        have f3d : db3.attDuties = db2.attDuties := by
          have hs := putAttPubKey_attDuties db2 ⟨a.data.slot, 0,
            a.duty.validatorIndex⟩ a.duty.slot pk
          rw [h3] at hs
          exact hs
        rcases h4 : putAttDuty db3 ⟨a.data.slot, 0⟩ a.data with ⟨db4, e4⟩
        cases e4 with
        | some e =>
          exfalso
          rw [show (storeAttestation db pk (.attestation a)).2 = some e
              from by simp [storeAttestation, h1, h2, h3, h4]] at hok
          exact Option.noConfusion hok
        | none =>
          have f4 : db4.attDuties ⟨a.data.slot, 0⟩ = some a.data := by
            have hs := putAttDuty_ok db3 ⟨a.data.slot, 0⟩ a.data (by rw [h4])
            rw [h4] at hs
            exact hs
          have f4a : db4.attDuties ⟨a.data.slot, a.duty.committeeIndex⟩ =
              some a.data := by
            have hs := putAttDuty_mono db3 ⟨a.data.slot, 0⟩ a.data
              ⟨a.data.slot, a.duty.committeeIndex⟩ a.data
              (by rw [f3d]; exact f2)
            rw [h4] at hs
            exact hs
          have f4pk : db4.attPubKeys = db3.attPubKeys := by
            have hs := (putAttDuty_attPubKeys db3 ⟨a.data.slot, 0⟩ a.data).1
            rw [h4] at hs
            exact hs
          have hres : (storeAttestation db pk (.attestation a)).1 = db4 := by
            simp [storeAttestation, h1, h2, h3, h4]
          rw [hres]
          refine ⟨f4a, f4, by rw [f4pk]; exact f3a, by rw [f4pk]; exact f3,
            ?_, ?_, ?_⟩
          · simp [pubKeyByAttestation, f4pk, f3a]
          · simp [pubKeyByAttestation, f4pk, f3]
          · intro c hc
            exact awaitAttestationRegister_hit db4 a.data.slot c a.data hc

theorem c4_witness :
    (storeAttestation initDB 55 (.attestation ⟨⟨42, 7⟩, ⟨42, 3, 7⟩⟩)).2 =
      none ∧
    (storeAttestation initDB 55
        (.attestation ⟨⟨42, 7⟩, ⟨42, 3, 7⟩⟩)).1.attDuties ⟨42, 3⟩ =
      some ⟨42, 7⟩ ∧
    (storeAttestation initDB 55
        (.attestation ⟨⟨42, 7⟩, ⟨42, 3, 7⟩⟩)).1.attDuties ⟨42, 0⟩ =
      some ⟨42, 7⟩ ∧
    pubKeyByAttestation (storeAttestation initDB 55
        (.attestation ⟨⟨42, 7⟩, ⟨42, 3, 7⟩⟩)).1 42 3 7 = .ok 55 ∧
    pubKeyByAttestation (storeAttestation initDB 55
        (.attestation ⟨⟨42, 7⟩, ⟨42, 3, 7⟩⟩)).1 42 0 7 = .ok 55 :=
  ⟨by decide,
   (c4_attester_duplication initDB 55 ⟨⟨42, 7⟩, ⟨42, 3, 7⟩⟩ (by decide)).1,
   (c4_attester_duplication initDB 55 ⟨⟨42, 7⟩, ⟨42, 3, 7⟩⟩ (by decide)).2.1,
   (c4_attester_duplication initDB 55 ⟨⟨42, 7⟩, ⟨42, 3, 7⟩⟩
     (by decide)).2.2.2.2.1,
   (c4_attester_duplication initDB 55 ⟨⟨42, 7⟩, ⟨42, 3, 7⟩⟩
     (by decide)).2.2.2.2.2.1⟩

theorem putAttPubKey_rest2 (db : MemDB) (pKey : PkKey) (ds : Nat)
    (pk : PubKey) :
    (putAttPubKey db pKey ds pk).1.aggKeysBySlot = db.aggKeysBySlot ∧
    (putAttPubKey db pKey ds pk).1.contribDuties = db.contribDuties ∧
    (putAttPubKey db pKey ds pk).1.contribKeysBySlot = db.contribKeysBySlot := by
  rcases hpk : db.attPubKeys pKey with _ | v
  · simp [putAttPubKey, hpk]
  · by_cases hv : v = pk <;> simp [putAttPubKey, hpk, hv]

theorem putAttDuty_rest2 (db : MemDB) (aKey : AttKey) (d : AttDataInner) :
    (putAttDuty db aKey d).1.aggKeysBySlot = db.aggKeysBySlot ∧
    (putAttDuty db aKey d).1.contribDuties = db.contribDuties ∧
    (putAttDuty db aKey d).1.contribKeysBySlot = db.contribKeysBySlot := by
  rcases hd : db.attDuties aKey with _ | v
  · simp [putAttDuty, hd]
  · by_cases hv : v = d <;> simp [putAttDuty, hd, hv]

theorem storeAttestation_rest2 (db : MemDB) (pk : PubKey) (u : UnsignedData) :
    (storeAttestation db pk u).1.aggKeysBySlot = db.aggKeysBySlot ∧
    (storeAttestation db pk u).1.contribDuties = db.contribDuties ∧
    (storeAttestation db pk u).1.contribKeysBySlot = db.contribKeysBySlot := by
  cases u with
  | attestation a =>
    unfold storeAttestation
    rcases h1 : putAttPubKey db ⟨a.data.slot, a.duty.committeeIndex,
        a.duty.validatorIndex⟩ a.duty.slot pk with ⟨db1, e1⟩
    have g1 := putAttPubKey_rest2 db ⟨a.data.slot, a.duty.committeeIndex,
      a.duty.validatorIndex⟩ a.duty.slot pk
    rw [h1] at g1
    cases e1 with
    | some e => simpa [h1] using g1
    | none =>
      rcases h2 : putAttDuty db1 ⟨a.data.slot, a.duty.committeeIndex⟩ a.data
        with ⟨db2, e2⟩
      have g2 := putAttDuty_rest2 db1 ⟨a.data.slot, a.duty.committeeIndex⟩
        a.data
      rw [h2] at g2
      cases e2 with
      | some e =>
        simpa [h1, h2] using ⟨g2.1.trans g1.1, g2.2.1.trans g1.2.1,
          g2.2.2.trans g1.2.2⟩
      | none =>
        rcases h3 : putAttPubKey db2 ⟨a.data.slot, 0, a.duty.validatorIndex⟩
            a.duty.slot pk with ⟨db3, e3⟩
        have g3 := putAttPubKey_rest2 db2 ⟨a.data.slot, 0,
          a.duty.validatorIndex⟩ a.duty.slot pk
        rw [h3] at g3
        cases e3 with
        | some e =>
          simpa [h1, h2, h3] using ⟨(g3.1.trans g2.1).trans g1.1,
            (g3.2.1.trans g2.2.1).trans g1.2.1,
            (g3.2.2.trans g2.2.2).trans g1.2.2⟩
        | none =>
          have g4 := putAttDuty_rest2 db3 ⟨a.data.slot, 0⟩ a.data
          simpa [h1, h2, h3] using ⟨((g4.1.trans g3.1).trans g2.1).trans g1.1,
            ((g4.2.1.trans g3.2.1).trans g2.2.1).trans g1.2.1,
            ((g4.2.2.trans g3.2.2).trans g2.2.2).trans g1.2.2⟩
  | proposal p => exact ⟨rfl, rfl, rfl⟩
  | agg a => exact ⟨rfl, rfl, rfl⟩
  | contrib c => exact ⟨rfl, rfl, rfl⟩

theorem storeProposal_rest2 (db : MemDB) (u : UnsignedData) :
    (storeProposal db u).1.aggKeysBySlot = db.aggKeysBySlot ∧
    (storeProposal db u).1.contribDuties = db.contribDuties ∧
    (storeProposal db u).1.contribKeysBySlot = db.contribKeysBySlot := by
  cases u with
  | proposal p =>
    rcases h : db.proDuties p.slot with _ | existing
    · simp [storeProposal, h]
    · by_cases hr : existing.root = p.root <;> simp [storeProposal, h, hr]
  | attestation a => exact ⟨rfl, rfl, rfl⟩
  | agg a => exact ⟨rfl, rfl, rfl⟩
  | contrib c => exact ⟨rfl, rfl, rfl⟩

theorem storeSyncContribution_aggKeysBySlot (db : MemDB) (u : UnsignedData) :
    (storeSyncContribution db u).1.aggKeysBySlot = db.aggKeysBySlot := by
  cases u with
  | contrib c =>
    rcases h : db.contribDuties ⟨c.slot, c.subcommitteeIndex, c.beaconBlockRoot⟩
      with _ | existing
    · simp [storeSyncContribution, h]
    · by_cases hr : existing.htr = c.htr <;> simp [storeSyncContribution, h, hr]
  | attestation a => rfl
  | proposal p => rfl
  | agg a => rfl

theorem storeAggAttestation_rest2 (db : MemDB) (u : UnsignedData) :
    (storeAggAttestation db u).1.contribDuties = db.contribDuties ∧
    (storeAggAttestation db u).1.contribKeysBySlot = db.contribKeysBySlot := by
  cases u with
  | agg a =>
    rcases h : db.aggDuties ⟨a.data.slot, htrAttData a.data⟩ with _ | existing
    · simp [storeAggAttestation, h]
    · by_cases hr : htrAttData existing.data = htrAttData a.data <;>
        simp [storeAggAttestation, h, hr]
  | attestation a => exact ⟨rfl, rfl⟩
  | proposal p => exact ⟨rfl, rfl⟩
  | contrib c => exact ⟨rfl, rfl⟩

theorem storeAttesterSet_rest2 (set : List (PubKey × UnsignedData))
    (db : MemDB) :
    (storeAttesterSet db set).1.aggKeysBySlot = db.aggKeysBySlot ∧
    (storeAttesterSet db set).1.contribDuties = db.contribDuties ∧
    (storeAttesterSet db set).1.contribKeysBySlot = db.contribKeysBySlot := by
  induction set generalizing db with
  | nil => exact ⟨rfl, rfl, rfl⟩
  | cons p rest ih =>
    rcases h : storeAttestation db p.1 p.2 with ⟨db1, e1⟩
    have g := storeAttestation_rest2 db p.1 p.2
    rw [h] at g
    cases e1 with
    | some e => simpa [storeAttesterSet, h] using g
    | none =>
      have g' := ih db1
      simp only [storeAttesterSet, h]
      exact ⟨g'.1.trans g.1, g'.2.1.trans g.2.1, g'.2.2.trans g.2.2⟩

theorem storeProposerSet_rest2 (set : List (PubKey × UnsignedData))
    (db : MemDB) :
    (storeProposerSet db set).1.aggKeysBySlot = db.aggKeysBySlot ∧
    (storeProposerSet db set).1.contribDuties = db.contribDuties ∧
    (storeProposerSet db set).1.contribKeysBySlot = db.contribKeysBySlot := by
  induction set generalizing db with
  | nil => exact ⟨rfl, rfl, rfl⟩
  | cons p rest ih =>
    rcases h : storeProposal db p.2 with ⟨db1, e1⟩
    have g := storeProposal_rest2 db p.2
    rw [h] at g
    cases e1 with
    | some e => simpa [storeProposerSet, h] using g
    | none =>
      have g' := ih db1
      simp only [storeProposerSet, h]
      exact ⟨g'.1.trans g.1, g'.2.1.trans g.2.1, g'.2.2.trans g.2.2⟩

theorem storeAggSet_rest2 (set : List (PubKey × UnsignedData)) (db : MemDB) :
    (storeAggSet db set).1.contribDuties = db.contribDuties ∧
    (storeAggSet db set).1.contribKeysBySlot = db.contribKeysBySlot := by
  induction set generalizing db with
  | nil => exact ⟨rfl, rfl⟩
  | cons p rest ih =>
    rcases h : storeAggAttestation db p.2 with ⟨db1, e1⟩
    have g := storeAggAttestation_rest2 db p.2
    rw [h] at g
    cases e1 with
    | some e => simpa [storeAggSet, h] using g
    | none =>
      have g' := ih db1
      simp only [storeAggSet, h]
      exact ⟨g'.1.trans g.1, g'.2.trans g.2⟩

theorem storeContribSet_aggKeysBySlot (set : List (PubKey × UnsignedData))
    (db : MemDB) :
    (storeContribSet db set).1.aggKeysBySlot = db.aggKeysBySlot := by
  induction set generalizing db with
  | nil => rfl
  | cons p rest ih =>
    rcases h : storeSyncContribution db p.2 with ⟨db1, e1⟩
    have g := storeSyncContribution_aggKeysBySlot db p.2
    rw [h] at g
    cases e1 with
    | some e => simpa [storeContribSet, h] using g
    | none =>
      simp only [storeContribSet, h]
      exact (ih db1).trans g

theorem deleteAttKeys_rest2 (ks : List PkKey) (db : MemDB) :
    (deleteAttKeys db ks).aggKeysBySlot = db.aggKeysBySlot ∧
    (deleteAttKeys db ks).contribDuties = db.contribDuties ∧
    (deleteAttKeys db ks).contribKeysBySlot = db.contribKeysBySlot := by
  induction ks generalizing db with
  | nil => exact ⟨rfl, rfl, rfl⟩
  | cons k0 rest ih => simpa [deleteAttKeys] using ih _

theorem deleteAggKeys_rest2 (ks : List AggKey) (db : MemDB) :
    (deleteAggKeys db ks).aggKeysBySlot = db.aggKeysBySlot ∧
    (deleteAggKeys db ks).contribDuties = db.contribDuties ∧
    (deleteAggKeys db ks).contribKeysBySlot = db.contribKeysBySlot := by
  induction ks generalizing db with
  | nil => exact ⟨rfl, rfl, rfl⟩
  | cons k0 rest ih => simpa [deleteAggKeys] using ih _

theorem deleteContribKeys_contribDuties (ks : List ContribKey) (db : MemDB)
    (k : ContribKey) :
    (deleteContribKeys db ks).contribDuties k =
      if k ∈ ks then none else db.contribDuties k := by
  induction ks generalizing db with
  | nil => simp [deleteContribKeys]
  | cons k0 rest ih =>
    by_cases hk : k ∈ rest
    · simp [deleteContribKeys, ih, hk]
    · by_cases he : k = k0
      · subst he
        simp [deleteContribKeys, ih, hk, Map.erase_same]
      · simp [deleteContribKeys, ih, hk, he, Map.erase_other _ _ _ he]

theorem deleteContribKeys_rest2 (ks : List ContribKey) (db : MemDB) :
    (deleteContribKeys db ks).aggKeysBySlot = db.aggKeysBySlot ∧
    (deleteContribKeys db ks).contribKeysBySlot = db.contribKeysBySlot := by
  induction ks generalizing db with
  | nil => exact ⟨rfl, rfl⟩
  | cons k0 rest ih => simpa [deleteContribKeys] using ih _

/-- The aggregator slot-index listing invariant: every live aggregate entry
is listed in the slot-to-keys record of its own slot (entries are appended on
fresh insert, and overwrite keeps the existing listing). -/
def AggListInv (db : MemDB) : Prop :=
  ∀ k : AggKey, db.aggDuties k ≠ none → k ∈ db.aggKeysBySlot k.slot

/-- The sync-contribution slot-index listing invariant: every live
contribution entry is listed in the slot-to-keys record of its own slot. -/
def ContribListInv (db : MemDB) : Prop :=
  ∀ k : ContribKey, db.contribDuties k ≠ none → k ∈ db.contribKeysBySlot k.slot

theorem aggListInv_congr {db db' : MemDB} (h : AggListInv db)
    (h1 : db'.aggDuties = db.aggDuties)
    (h2 : db'.aggKeysBySlot = db.aggKeysBySlot) : AggListInv db' := by
  intro k hk
  rw [h1] at hk
  rw [h2]
  exact h k hk

theorem contribListInv_congr {db db' : MemDB} (h : ContribListInv db)
    (h1 : db'.contribDuties = db.contribDuties)
    (h2 : db'.contribKeysBySlot = db.contribKeysBySlot) : ContribListInv db' := by
  intro k hk
  rw [h1] at hk
  rw [h2]
  exact h k hk

theorem storeAggAttestation_aggListInv (db : MemDB) (u : UnsignedData)
    (h : AggListInv db) : AggListInv (storeAggAttestation db u).1 := by
  cases u with
  | agg a =>
    rcases hk : db.aggDuties ⟨a.data.slot, htrAttData a.data⟩ with _ | existing
    · intro k hlive
      have hlive' : Map.insert db.aggDuties ⟨a.data.slot, htrAttData a.data⟩
          a k ≠ none := by
        rw [show (storeAggAttestation db (.agg a)).1.aggDuties =
            Map.insert db.aggDuties ⟨a.data.slot, htrAttData a.data⟩ a from by
          simp [storeAggAttestation, hk]] at hlive
        exact hlive
      rw [show (storeAggAttestation db (.agg a)).1.aggKeysBySlot =
          appendAt db.aggKeysBySlot a.data.slot
            ⟨a.data.slot, htrAttData a.data⟩ from by
        simp [storeAggAttestation, hk]]
      by_cases hke : k = ⟨a.data.slot, htrAttData a.data⟩
      · subst hke
        simp [appendAt]
      · rw [Map.insert_other _ _ _ _ hke] at hlive'
        have hm := h k hlive'
        by_cases hs : k.slot = a.data.slot
        · simp only [appendAt, hs, if_pos]
          exact List.mem_append_left _ (hs ▸ hm)
        · simp only [appendAt, hs, if_false]
          exact hm
    · by_cases hr : htrAttData existing.data = htrAttData a.data
      · intro k hlive
        have hlive' : Map.insert db.aggDuties ⟨a.data.slot, htrAttData a.data⟩
            a k ≠ none := by
          rw [show (storeAggAttestation db (.agg a)).1.aggDuties =
              Map.insert db.aggDuties ⟨a.data.slot, htrAttData a.data⟩ a
              from by simp [storeAggAttestation, hk, hr]] at hlive
          exact hlive
        rw [show (storeAggAttestation db (.agg a)).1.aggKeysBySlot =
            db.aggKeysBySlot from by simp [storeAggAttestation, hk, hr]]
        by_cases hke : k = ⟨a.data.slot, htrAttData a.data⟩
        · subst hke
          exact h _ (by rw [hk]; simp)
        · rw [Map.insert_other _ _ _ _ hke] at hlive'
          exact h k hlive'
      · intro k hlive
        rw [show (storeAggAttestation db (.agg a)).1 = db from by
          simp [storeAggAttestation, hk, hr]] at hlive
        rw [show (storeAggAttestation db (.agg a)).1 = db from by
          simp [storeAggAttestation, hk, hr]]
        exact h k hlive
  | attestation a => exact h
  | proposal p => exact h
  | contrib c => exact h

theorem storeAggSet_aggListInv (set : List (PubKey × UnsignedData))
    (db : MemDB) (h : AggListInv db) : AggListInv (storeAggSet db set).1 := by
  induction set generalizing db with
  | nil => exact h
  | cons p rest ih =>
    rcases hs : storeAggAttestation db p.2 with ⟨db1, e1⟩
    have g := storeAggAttestation_aggListInv db p.2 h
    rw [hs] at g
    cases e1 with
    | some e =>
      intro k hk
      rw [show (storeAggSet db (p :: rest)).1 = db1 from by
        simp [storeAggSet, hs]] at hk
      rw [show (storeAggSet db (p :: rest)).1 = db1 from by
        simp [storeAggSet, hs]]
      exact g k hk
    | none =>
      intro k hk
      rw [show (storeAggSet db (p :: rest)).1 = (storeAggSet db1 rest).1
        from by simp [storeAggSet, hs]] at hk
      rw [show (storeAggSet db (p :: rest)).1 = (storeAggSet db1 rest).1
        from by simp [storeAggSet, hs]]
      exact ih db1 g k hk

theorem storeSyncContribution_contribListInv (db : MemDB) (u : UnsignedData)
    (h : ContribListInv db) :
    ContribListInv (storeSyncContribution db u).1 := by
  cases u with
  | contrib c =>
    rcases hk : db.contribDuties ⟨c.slot, c.subcommitteeIndex,
        c.beaconBlockRoot⟩ with _ | existing
    · intro k hlive
      have hlive' : Map.insert db.contribDuties
          ⟨c.slot, c.subcommitteeIndex, c.beaconBlockRoot⟩ c k ≠ none := by
        rw [show (storeSyncContribution db (.contrib c)).1.contribDuties =
            Map.insert db.contribDuties
              ⟨c.slot, c.subcommitteeIndex, c.beaconBlockRoot⟩ c from by
          simp [storeSyncContribution, hk]] at hlive
        exact hlive
      rw [show (storeSyncContribution db (.contrib c)).1.contribKeysBySlot =
          appendAt db.contribKeysBySlot c.slot
            ⟨c.slot, c.subcommitteeIndex, c.beaconBlockRoot⟩ from by
        simp [storeSyncContribution, hk]]
      by_cases hke : k = ⟨c.slot, c.subcommitteeIndex, c.beaconBlockRoot⟩
      · subst hke
        simp [appendAt]
      · rw [Map.insert_other _ _ _ _ hke] at hlive'
        have hm := h k hlive'
        by_cases hs : k.slot = c.slot
        · simp only [appendAt, hs, if_pos]
          exact List.mem_append_left _ (hs ▸ hm)
        · simp only [appendAt, hs, if_false]
          exact hm
    · by_cases hr : existing.htr = c.htr
      · intro k hlive
        rw [show (storeSyncContribution db (.contrib c)).1 = db from by
          simp [storeSyncContribution, hk, hr]] at hlive
        rw [show (storeSyncContribution db (.contrib c)).1 = db from by
          simp [storeSyncContribution, hk, hr]]
        exact h k hlive
      · intro k hlive
        rw [show (storeSyncContribution db (.contrib c)).1 = db from by
          simp [storeSyncContribution, hk, hr]] at hlive
        rw [show (storeSyncContribution db (.contrib c)).1 = db from by
          simp [storeSyncContribution, hk, hr]]
        exact h k hlive
  | attestation a => exact h
  | proposal p => exact h
  | agg a => exact h

theorem storeContribSet_contribListInv (set : List (PubKey × UnsignedData))
    (db : MemDB) (h : ContribListInv db) :
    ContribListInv (storeContribSet db set).1 := by
  induction set generalizing db with
  | nil => exact h
  | cons p rest ih =>
    rcases hs : storeSyncContribution db p.2 with ⟨db1, e1⟩
    have g := storeSyncContribution_contribListInv db p.2 h
    rw [hs] at g
    cases e1 with
    | some e =>
      intro k hk
      rw [show (storeContribSet db (p :: rest)).1 = db1 from by
        simp [storeContribSet, hs]] at hk
      rw [show (storeContribSet db (p :: rest)).1 = db1 from by
        simp [storeContribSet, hs]]
      exact g k hk
    | none =>
      intro k hk
      rw [show (storeContribSet db (p :: rest)).1 =
        (storeContribSet db1 rest).1 from by simp [storeContribSet, hs]] at hk
      rw [show (storeContribSet db (p :: rest)).1 =
        (storeContribSet db1 rest).1 from by simp [storeContribSet, hs]]
      exact ih db1 g k hk

theorem deleteDuty_evictListInv (db : MemDB) (d : Duty)
    (h : AggListInv db ∧ ContribListInv db) :
    AggListInv (deleteDuty db d).1 ∧ ContribListInv (deleteDuty db d).1 := by
  obtain ⟨hA, hC⟩ := h
  cases ht : d.type with
  | proposer =>
    exact ⟨aggListInv_congr hA (by simp [deleteDuty, ht])
        (by simp [deleteDuty, ht]),
      contribListInv_congr hC (by simp [deleteDuty, ht])
        (by simp [deleteDuty, ht])⟩
  | builderProposer =>
    exact ⟨aggListInv_congr hA (by simp [deleteDuty, ht])
        (by simp [deleteDuty, ht]),
      contribListInv_congr hC (by simp [deleteDuty, ht])
        (by simp [deleteDuty, ht])⟩
  | other =>
    exact ⟨aggListInv_congr hA (by simp [deleteDuty, ht])
        (by simp [deleteDuty, ht]),
      contribListInv_congr hC (by simp [deleteDuty, ht])
        (by simp [deleteDuty, ht])⟩
  | attester =>
    exact ⟨aggListInv_congr hA
        (by simp [deleteDuty, ht, (deleteAttKeys_rest _ db).2])
        (by simp [deleteDuty, ht, (deleteAttKeys_rest2 _ db).1]),
      contribListInv_congr hC
        (by simp [deleteDuty, ht, (deleteAttKeys_rest2 _ db).2.1])
        (by simp [deleteDuty, ht, (deleteAttKeys_rest2 _ db).2.2])⟩
  | aggregator =>
    constructor
    · intro k hlive
      have hdu : (deleteDuty db d).1.aggDuties k =
          (deleteAggKeys db (db.aggKeysBySlot d.slot)).aggDuties k := by
        simp [deleteDuty, ht]
      rw [hdu, deleteAggKeys_aggDuties] at hlive
      by_cases hmem : k ∈ db.aggKeysBySlot d.slot
      · rw [if_pos hmem] at hlive
        exact absurd rfl hlive
      · rw [if_neg hmem] at hlive
        have hm := hA k hlive
        have hks : (deleteDuty db d).1.aggKeysBySlot =
            clearAt (deleteAggKeys db
              (db.aggKeysBySlot d.slot)).aggKeysBySlot d.slot := by
          simp [deleteDuty, ht]
        rw [hks]
        have hne : k.slot ≠ d.slot := by
          intro he
          rw [he] at hm
          exact hmem hm
        simp only [clearAt, hne, if_false]
        rw [(deleteAggKeys_rest2 _ db).1]
        exact hm
    · exact contribListInv_congr hC
        (by simp [deleteDuty, ht, (deleteAggKeys_rest2 _ db).2.1])
        (by simp [deleteDuty, ht, (deleteAggKeys_rest2 _ db).2.2])
  | syncContribution =>
    constructor
    · exact aggListInv_congr hA
        (by simp [deleteDuty, ht, (deleteContribKeys_rest _ db).2.2.2])
        (by simp [deleteDuty, ht, (deleteContribKeys_rest2 _ db).1])
    · intro k hlive
      have hdu : (deleteDuty db d).1.contribDuties k =
          (deleteContribKeys db (db.contribKeysBySlot d.slot)).contribDuties
            k := by
        simp [deleteDuty, ht]
      rw [hdu, deleteContribKeys_contribDuties] at hlive
      by_cases hmem : k ∈ db.contribKeysBySlot d.slot
      · rw [if_pos hmem] at hlive
        exact absurd rfl hlive
      · rw [if_neg hmem] at hlive
        have hm := hC k hlive
        have hks : (deleteDuty db d).1.contribKeysBySlot =
            clearAt (deleteContribKeys db
              (db.contribKeysBySlot d.slot)).contribKeysBySlot d.slot := by
          simp [deleteDuty, ht]
        rw [hks]
        have hne : k.slot ≠ d.slot := by
          intro he
          rw [he] at hm
          exact hmem hm
        simp only [clearAt, hne, if_false]
        rw [(deleteContribKeys_rest2 _ db).2]
        exact hm

theorem drainExpired_evictListInv (expired : List Duty) (db : MemDB)
    (h : AggListInv db ∧ ContribListInv db) :
    AggListInv (drainExpired db expired).1 ∧
    ContribListInv (drainExpired db expired).1 := by
  induction expired generalizing db with
  | nil => exact h
  | cons d rest ih =>
    rcases hd : deleteDuty db d with ⟨db1, e1⟩
    have g := deleteDuty_evictListInv db d h
    rw [hd] at g
    cases e1 with
    | some e =>
      constructor
      · intro k hk
        rw [show (drainExpired db (d :: rest)).1 = db1 from by
          simp [drainExpired, hd]] at hk
        rw [show (drainExpired db (d :: rest)).1 = db1 from by
          simp [drainExpired, hd]]
        exact g.1 k hk
      · intro k hk
        rw [show (drainExpired db (d :: rest)).1 = db1 from by
          simp [drainExpired, hd]] at hk
        rw [show (drainExpired db (d :: rest)).1 = db1 from by
          simp [drainExpired, hd]]
        exact g.2 k hk
    | none =>
      constructor
      · intro k hk
        rw [show (drainExpired db (d :: rest)).1 = (drainExpired db1 rest).1
          from by simp [drainExpired, hd]] at hk
        rw [show (drainExpired db (d :: rest)).1 = (drainExpired db1 rest).1
          from by simp [drainExpired, hd]]
        exact (ih db1 g).1 k hk
      · intro k hk
        rw [show (drainExpired db (d :: rest)).1 = (drainExpired db1 rest).1
          from by simp [drainExpired, hd]] at hk
        rw [show (drainExpired db (d :: rest)).1 = (drainExpired db1 rest).1
          from by simp [drainExpired, hd]]
        exact (ih db1 g).2 k hk

/-- The slot-index listing invariants are preserved by every event. -/
theorem evictListInv_applyEvent (db : MemDB) (e : Event)
    (h : AggListInv db ∧ ContribListInv db) :
    AggListInv (applyEvent db e) ∧ ContribListInv (applyEvent db e) := by
  obtain ⟨hA, hC⟩ := h
  cases e with
  | store duty set ok expired =>
    show AggListInv (dutyStore db duty set ok expired).1 ∧
      ContribListInv (dutyStore db duty set ok expired).1
    cases ok with
    | false =>
      constructor
      · intro k hk
        rw [show (dutyStore db duty set false expired).1 = db from by
          simp [dutyStore]] at hk
        rw [show (dutyStore db duty set false expired).1 = db from by
          simp [dutyStore]]
        exact hA k hk
      · intro k hk
        rw [show (dutyStore db duty set false expired).1 = db from by
          simp [dutyStore]] at hk
        rw [show (dutyStore db duty set false expired).1 = db from by
          simp [dutyStore]]
        exact hC k hk
    | true =>
      cases ht : duty.type with
      | proposer =>
        by_cases hlen : set.length > 1
        · rw [show (dutyStore db duty set true expired).1 = db from by
            simp [dutyStore, ht, hlen]]
          exact ⟨hA, hC⟩
        · rcases hps : storeProposerSet db set with ⟨db1, e1⟩
          have a1 := (storeProposerSet_untouched set db).1
          have a2 := storeProposerSet_rest2 set db
          rw [hps] at a1 a2
          have hinv1 : AggListInv db1 ∧ ContribListInv db1 :=
            ⟨aggListInv_congr hA a1 a2.1,
             contribListInv_congr hC a2.2.1 a2.2.2⟩
          cases e1 with
          | some e =>
            rw [show (dutyStore db duty set true expired).1 = db1 from by
              simp [dutyStore, ht, hlen, hps]]
            exact hinv1
          | none =>
            rw [show (dutyStore db duty set true expired).1 =
                (drainExpired (resolveProQueries db1) expired).1 from by
              simp [dutyStore, ht, hlen, hps]]
            exact drainExpired_evictListInv expired _
              ⟨aggListInv_congr hinv1.1 rfl rfl,
               contribListInv_congr hinv1.2 rfl rfl⟩
      | builderProposer =>
        rw [show (dutyStore db duty set true expired).1 = db from by
          simp [dutyStore, ht]]
        exact ⟨hA, hC⟩
      | attester =>
        rcases hps : storeAttesterSet db set with ⟨db1, e1⟩
        have a1 := storeAttesterSet_aggDuties set db
        have a2 := storeAttesterSet_rest2 set db
        rw [hps] at a1 a2
        have hinv1 : AggListInv db1 ∧ ContribListInv db1 :=
          ⟨aggListInv_congr hA a1 a2.1,
           contribListInv_congr hC a2.2.1 a2.2.2⟩
        cases e1 with
        | some e =>
          rw [show (dutyStore db duty set true expired).1 = db1 from by
            simp [dutyStore, ht, hps]]
          exact hinv1
        | none =>
          rw [show (dutyStore db duty set true expired).1 =
              (drainExpired (resolveAttQueries db1) expired).1 from by
            simp [dutyStore, ht, hps]]
          exact drainExpired_evictListInv expired _
            ⟨aggListInv_congr hinv1.1 rfl rfl,
             contribListInv_congr hinv1.2 rfl rfl⟩
      | aggregator =>
        rcases hps : storeAggSet db set with ⟨db1, e1⟩
        have a1 := storeAggSet_aggListInv set db hA
        have a2 := storeAggSet_rest2 set db
        rw [hps] at a1 a2
        have hinv1 : AggListInv db1 ∧ ContribListInv db1 :=
          ⟨a1, contribListInv_congr hC a2.1 a2.2⟩
        cases e1 with
        | some e =>
          rw [show (dutyStore db duty set true expired).1 = db1 from by
            simp [dutyStore, ht, hps]]
          exact hinv1
        | none =>
          rw [show (dutyStore db duty set true expired).1 =
              (drainExpired (resolveAggQueries db1) expired).1 from by
            simp [dutyStore, ht, hps]]
          exact drainExpired_evictListInv expired _
            ⟨aggListInv_congr hinv1.1 rfl rfl,
             contribListInv_congr hinv1.2 rfl rfl⟩
      | syncContribution =>
        rcases hps : storeContribSet db set with ⟨db1, e1⟩
        have a1 := (storeContribSet_untouched set db).1
        have a2 := storeContribSet_aggKeysBySlot set db
        have a3 := storeContribSet_contribListInv set db hC
        rw [hps] at a1 a2 a3
        have hinv1 : AggListInv db1 ∧ ContribListInv db1 :=
          ⟨aggListInv_congr hA a1 a2, a3⟩
        cases e1 with
        | some e =>
          rw [show (dutyStore db duty set true expired).1 = db1 from by
            simp [dutyStore, ht, hps]]
          exact hinv1
        | none =>
          rw [show (dutyStore db duty set true expired).1 =
              (drainExpired (resolveContribQueries db1) expired).1 from by
            simp [dutyStore, ht, hps]]
          exact drainExpired_evictListInv expired _
            ⟨aggListInv_congr hinv1.1 rfl rfl,
             contribListInv_congr hinv1.2 rfl rfl⟩
      | other =>
        rw [show (dutyStore db duty set true expired).1 = db from by
          simp [dutyStore, ht]]
        exact ⟨hA, hC⟩
  | awaitPro slot =>
    exact ⟨aggListInv_congr hA rfl rfl, contribListInv_congr hC rfl rfl⟩
  | awaitAtt slot commIdx =>
    exact ⟨aggListInv_congr hA rfl rfl, contribListInv_congr hC rfl rfl⟩
  | awaitAgg slot root =>
    exact ⟨aggListInv_congr hA rfl rfl, contribListInv_congr hC rfl rfl⟩
  | awaitContrib slot subcommIdx root =>
    exact ⟨aggListInv_congr hA rfl rfl, contribListInv_congr hC rfl rfl⟩
  | cancelPro id =>
    exact ⟨aggListInv_congr hA rfl rfl, contribListInv_congr hC rfl rfl⟩
  | cancelAtt id =>
    exact ⟨aggListInv_congr hA rfl rfl, contribListInv_congr hC rfl rfl⟩
  | cancelAgg id =>
    exact ⟨aggListInv_congr hA rfl rfl, contribListInv_congr hC rfl rfl⟩
  | cancelContrib id =>
    exact ⟨aggListInv_congr hA rfl rfl, contribListInv_congr hC rfl rfl⟩
  | shutdownEv =>
    exact ⟨aggListInv_congr hA rfl rfl, contribListInv_congr hC rfl rfl⟩

/-- Every reachable state satisfies the slot-index listing invariants. -/
theorem reachable_evictListInv {db : MemDB} (h : Reachable db) :
    AggListInv db ∧ ContribListInv db := by
  induction h with
  | init =>
    constructor
    · intro k hk
      simp [initDB] at hk
    · intro k hk
      simp [initDB] at hk
  | step db e hr ih => exact evictListInv_applyEvent db e ih

/-- Registering an `Await*` against a state whose registry and log are
well-formed and whose key is absent writes nothing to the fresh query's
channel during the registration pass. -/
theorem register_no_delivery {κ ν : Type} (lookup : κ → Option ν)
    (qs : List (Query κ)) (log : List (Nat × ν)) (next : Nat) (key : κ)
    (hok : chanOk qs log next) (hnone : lookup key = none) (x : ν) :
    (next, x) ∉ log ++ (resolveList lookup (qs ++ [⟨next, key, false⟩])).2 := by
  intro hmem
  rcases List.mem_append.mp hmem with hl | hr
  · exact absurd (hok.2.2.1 _ hl) (lt_irrefl _)
  · rw [resolveList_snd] at hr
    rcases List.mem_filterMap.mp hr with ⟨q, hq, hfq⟩
    rcases List.mem_append.mp hq with hq1 | hq2
    · by_cases hc : q.cancel = true
      · rw [if_pos hc] at hfq
        exact Option.noConfusion hfq
      · rw [if_neg hc] at hfq
        rcases hlk : lookup q.key with _ | v
        · rw [hlk] at hfq
          exact Option.noConfusion hfq
        · rw [hlk] at hfq
          have hid : q.id = next := congrArg Prod.fst (Option.some.inj hfq)
          have hlt := hok.1 q hq1
          rw [hid] at hlt
          exact lt_irrefl _ hlt
    · rw [List.mem_singleton.mp hq2] at hfq
      have hfq' : ((lookup key).map fun v => (next, v)) = some (next, x) := hfq
      rw [hnone] at hfq'
      exact Option.noConfusion hfq'

/-- C5: after the evictor processes an expiration for a `(slot, kind)` duty
in a reachable state (with coherent attester payloads), the deletion
succeeds and no payload, pubkey or slot-index entry for that slot under
that kind remains — for attester, deleting every key listed in the
slot-to-keys record removes both the caller-supplied and committee-index-0
variants of the payload and pubkey entries — and a fresh `Await*`
registration for that slot under that kind is delivered nothing. -/
theorem c5_eviction_complete (db : MemDB) (d : Duty) (hg : GoodReachable db) :
    (d.type = DutyType.proposer →
       (deleteDuty db d).2 = none ∧
       (deleteDuty db d).1.proDuties d.slot = none ∧
       (∀ x : VersionedProposal,
          ((awaitProposalRegister (deleteDuty db d).1 d.slot).2, x) ∉
            (awaitProposalRegister (deleteDuty db d).1
              d.slot).1.proDeliveries)) ∧
    (d.type = DutyType.attester →
       (deleteDuty db d).2 = none ∧
       (∀ ak : AttKey, ak.slot = d.slot →
          (deleteDuty db d).1.attDuties ak = none) ∧
       (∀ k : PkKey, k.slot = d.slot →
          (deleteDuty db d).1.attPubKeys k = none) ∧
       (deleteDuty db d).1.attKeysBySlot d.slot = [] ∧
       (∀ c : Nat, ∀ x : AttDataInner,
          ((awaitAttestationRegister (deleteDuty db d).1 d.slot c).2, x) ∉
            (awaitAttestationRegister (deleteDuty db d).1 d.slot
              c).1.attDeliveries)) ∧
    (d.type = DutyType.aggregator →
       (deleteDuty db d).2 = none ∧
       (∀ k : AggKey, k.slot = d.slot →
          (deleteDuty db d).1.aggDuties k = none) ∧
       (deleteDuty db d).1.aggKeysBySlot d.slot = [] ∧
       (∀ root : AttDataInner, ∀ x : VersionedAggregatedAttestation,
          ((awaitAggAttestationRegister (deleteDuty db d).1 d.slot root).2,
            x) ∉
            (awaitAggAttestationRegister (deleteDuty db d).1 d.slot
              root).1.aggDeliveries)) ∧
    (d.type = DutyType.syncContribution →
       (deleteDuty db d).2 = none ∧
       (∀ k : ContribKey, k.slot = d.slot →
          (deleteDuty db d).1.contribDuties k = none) ∧
       (deleteDuty db d).1.contribKeysBySlot d.slot = [] ∧
       (∀ subcommIdx root : Nat, ∀ x : SyncCommitteeContribution,
          ((awaitSyncContributionRegister (deleteDuty db d).1 d.slot
              subcommIdx root).2, x) ∉
            (awaitSyncContributionRegister (deleteDuty db d).1 d.slot
              subcommIdx root).1.contribDeliveries)) := by
  have hinv : Inv db := reachable_inv (goodReachable_reachable hg)
  have hinv' : Inv (deleteDuty db d).1 :=
    hinv.transport (deleteDuty_frame db d)
      (fun k => deleteDuty_aggDuties_sub db d k)
  obtain ⟨hagL, hcoL⟩ :=
    reachable_evictListInv (goodReachable_reachable hg)
  refine ⟨?_, ?_, ?_, ?_⟩
  · intro hd
    have hpro : (deleteDuty db d).1.proDuties d.slot = none := by
      rw [show (deleteDuty db d).1.proDuties =
          Map.erase db.proDuties d.slot from by simp [deleteDuty, hd]]
      exact Map.erase_same _ _
    exact ⟨by simp [deleteDuty, hd], hpro,
      fun x => register_no_delivery (deleteDuty db d).1.proDuties
        (deleteDuty db d).1.proQueries (deleteDuty db d).1.proDeliveries
        (deleteDuty db d).1.nextQueryId d.slot hinv'.2.1 hpro x⟩
  · intro hd
    obtain ⟨h1, h2, h3, h4⟩ := goodReachable_attInv hg
    have hdu : ∀ ak, (deleteDuty db d).1.attDuties ak =
        (deleteAttKeys db (db.attKeysBySlot d.slot)).attDuties ak := by
      intro ak
      simp [deleteDuty, hd]
    have hpk : ∀ k, (deleteDuty db d).1.attPubKeys k =
        (deleteAttKeys db (db.attKeysBySlot d.slot)).attPubKeys k := by
      intro k
      simp [deleteDuty, hd]
    have hks : ∀ s, (deleteDuty db d).1.attKeysBySlot s =
        clearAt db.attKeysBySlot d.slot s := by
      intro s
      simp [deleteDuty, hd, clearAt, (deleteAttKeys_rest _ db).1]
    have hduN : ∀ ak : AttKey, ak.slot = d.slot →
        (deleteDuty db d).1.attDuties ak = none := by
      intro ak hak
      rcases ak with ⟨aks, akc⟩
      change aks = d.slot at hak
      subst hak
      rw [hdu ⟨d.slot, akc⟩, deleteAttKeys_attDuties]
      by_cases hex : ∃ k ∈ db.attKeysBySlot d.slot,
          (⟨k.slot, k.commIdx⟩ : AttKey) = ⟨d.slot, akc⟩
      · rw [if_pos hex]
      · rw [if_neg hex]
        by_contra hne
        rcases h4 ⟨d.slot, akc⟩ hne with ⟨v, hv⟩
        have hm := h1 ⟨d.slot, akc, v⟩ hv
        exact hex ⟨⟨d.slot, akc, v⟩, hm, rfl⟩
    have hpkN : ∀ k : PkKey, k.slot = d.slot →
        (deleteDuty db d).1.attPubKeys k = none := by
      intro k hk
      rw [hpk k, deleteAttKeys_attPubKeys]
      by_cases hmem : k ∈ db.attKeysBySlot d.slot
      · rw [if_pos hmem]
      · rw [if_neg hmem]
        by_contra hne
        have hm := h1 k hne
        rw [hk] at hm
        exact hmem hm
    refine ⟨by simp [deleteDuty, hd], hduN, hpkN,
      by rw [hks d.slot]; simp [clearAt], ?_⟩
    intro c x
    exact register_no_delivery (deleteDuty db d).1.attDuties
      (deleteDuty db d).1.attQueries (deleteDuty db d).1.attDeliveries
      (deleteDuty db d).1.nextQueryId ⟨d.slot, c⟩ hinv'.1
      (hduN ⟨d.slot, c⟩ rfl) x
  · intro hd
    have hdu : ∀ k, (deleteDuty db d).1.aggDuties k =
        (deleteAggKeys db (db.aggKeysBySlot d.slot)).aggDuties k := by
      intro k
      simp [deleteDuty, hd]
    have hkN : ∀ k : AggKey, k.slot = d.slot →
        (deleteDuty db d).1.aggDuties k = none := by
      intro k hk
      rcases k with ⟨ks, kr⟩
      change ks = d.slot at hk
      subst hk
      rw [hdu ⟨d.slot, kr⟩, deleteAggKeys_aggDuties]
      by_cases hmem : (⟨d.slot, kr⟩ : AggKey) ∈ db.aggKeysBySlot d.slot
      · rw [if_pos hmem]
      · rw [if_neg hmem]
        by_contra hne
        exact hmem (hagL ⟨d.slot, kr⟩ hne)
    have hlist : (deleteDuty db d).1.aggKeysBySlot d.slot = [] := by
      rw [show (deleteDuty db d).1.aggKeysBySlot = clearAt
          (deleteAggKeys db (db.aggKeysBySlot d.slot)).aggKeysBySlot d.slot
          from by simp [deleteDuty, hd]]
      simp [clearAt]
    refine ⟨by simp [deleteDuty, hd], hkN, hlist, ?_⟩
    intro root x
    exact register_no_delivery (deleteDuty db d).1.aggDuties
      (deleteDuty db d).1.aggQueries (deleteDuty db d).1.aggDeliveries
      (deleteDuty db d).1.nextQueryId ⟨d.slot, root⟩ hinv'.2.2.1
      (hkN ⟨d.slot, root⟩ rfl) x
  · intro hd
    have hdu : ∀ k, (deleteDuty db d).1.contribDuties k =
        (deleteContribKeys db (db.contribKeysBySlot d.slot)).contribDuties
          k := by
      intro k
      simp [deleteDuty, hd]
    have hkN : ∀ k : ContribKey, k.slot = d.slot →
        (deleteDuty db d).1.contribDuties k = none := by
      intro k hk
      rcases k with ⟨ks, ksub, kr⟩
      change ks = d.slot at hk
      subst hk
      rw [hdu ⟨d.slot, ksub, kr⟩, deleteContribKeys_contribDuties]
      by_cases hmem : (⟨d.slot, ksub, kr⟩ : ContribKey) ∈
          db.contribKeysBySlot d.slot
      · rw [if_pos hmem]
      · rw [if_neg hmem]
        by_contra hne
        exact hmem (hcoL ⟨d.slot, ksub, kr⟩ hne)
    have hlist : (deleteDuty db d).1.contribKeysBySlot d.slot = [] := by
      rw [show (deleteDuty db d).1.contribKeysBySlot = clearAt
          (deleteContribKeys db
            (db.contribKeysBySlot d.slot)).contribKeysBySlot d.slot
          from by simp [deleteDuty, hd]]
      simp [clearAt]
    refine ⟨by simp [deleteDuty, hd], hkN, hlist, ?_⟩
    intro subcommIdx root x
    exact register_no_delivery (deleteDuty db d).1.contribDuties
      (deleteDuty db d).1.contribQueries
      (deleteDuty db d).1.contribDeliveries
      (deleteDuty db d).1.nextQueryId ⟨d.slot, subcommIdx, root⟩
      hinv'.2.2.2.1 (hkN ⟨d.slot, subcommIdx, root⟩ rfl) x

def attA : AttestationData := ⟨⟨4, 10⟩, ⟨4, 3, 1⟩⟩

def dbC5 : MemDB :=
  applyEvent initDB
    (.store ⟨4, DutyType.attester⟩ [(7, .attestation attA)] true [])

theorem goodReachable_dbC5 : GoodReachable dbC5 :=
  GoodReachable.step initDB
    (.store ⟨4, DutyType.attester⟩ [(7, .attestation attA)] true [])
    GoodReachable.init
    (by
      intro p hp
      rw [List.mem_singleton.mp hp]
      rfl)

def dbC5all : MemDB :=
  applyEvent (applyEvent (applyEvent dbC5
    (.store ⟨100, DutyType.proposer⟩ [(0, .proposal ⟨100, 42⟩)] true []))
    (.store ⟨9, DutyType.aggregator⟩ [(0, .agg aggA1)] true []))
    (.store ⟨11, DutyType.syncContribution⟩ [(0, .contrib ⟨11, 0, 255, 1⟩)]
      true [])

theorem goodReachable_dbC5all : GoodReachable dbC5all :=
  GoodReachable.step _
    (.store ⟨11, DutyType.syncContribution⟩ [(0, .contrib ⟨11, 0, 255, 1⟩)]
      true [])
    (GoodReachable.step _
      (.store ⟨9, DutyType.aggregator⟩ [(0, .agg aggA1)] true [])
      (GoodReachable.step _
        (.store ⟨100, DutyType.proposer⟩ [(0, .proposal ⟨100, 42⟩)] true [])
        goodReachable_dbC5
        (by
          intro p hp
          rw [List.mem_singleton.mp hp]
          trivial))
      (by
        intro p hp
        rw [List.mem_singleton.mp hp]
        trivial))
    (by
      intro p hp
      rw [List.mem_singleton.mp hp]
      trivial)

theorem c5_witness :
    (deleteDuty dbC5all ⟨4, DutyType.attester⟩).2 = none ∧
    (deleteDuty dbC5all ⟨4, DutyType.attester⟩).1.attDuties ⟨4, 3⟩ = none ∧
    (deleteDuty dbC5all ⟨4, DutyType.attester⟩).1.attDuties ⟨4, 0⟩ = none ∧
    (deleteDuty dbC5all ⟨4, DutyType.attester⟩).1.attPubKeys ⟨4, 3, 1⟩ =
      none ∧
    (deleteDuty dbC5all ⟨4, DutyType.attester⟩).1.attPubKeys ⟨4, 0, 1⟩ =
      none ∧
    (deleteDuty dbC5all ⟨4, DutyType.attester⟩).1.attKeysBySlot 4 = [] ∧
    (deleteDuty dbC5all ⟨100, DutyType.proposer⟩).1.proDuties 100 = none ∧
    (deleteDuty dbC5all ⟨9, DutyType.aggregator⟩).1.aggDuties ⟨9, ⟨9, 0⟩⟩ =
      none ∧
    (deleteDuty dbC5all ⟨9, DutyType.aggregator⟩).1.aggKeysBySlot 9 = [] ∧
    (deleteDuty dbC5all ⟨11, DutyType.syncContribution⟩).1.contribDuties
      ⟨11, 0, 255⟩ = none ∧
    (deleteDuty dbC5all ⟨11, DutyType.syncContribution⟩).1.contribKeysBySlot
      11 = [] :=
  ⟨((c5_eviction_complete dbC5all ⟨4, DutyType.attester⟩
      goodReachable_dbC5all).2.1 rfl).1,
   ((c5_eviction_complete dbC5all ⟨4, DutyType.attester⟩
      goodReachable_dbC5all).2.1 rfl).2.1 ⟨4, 3⟩ rfl,
   ((c5_eviction_complete dbC5all ⟨4, DutyType.attester⟩
      goodReachable_dbC5all).2.1 rfl).2.1 ⟨4, 0⟩ rfl,
   ((c5_eviction_complete dbC5all ⟨4, DutyType.attester⟩
      goodReachable_dbC5all).2.1 rfl).2.2.1 ⟨4, 3, 1⟩ rfl,
   ((c5_eviction_complete dbC5all ⟨4, DutyType.attester⟩
      goodReachable_dbC5all).2.1 rfl).2.2.1 ⟨4, 0, 1⟩ rfl,
   ((c5_eviction_complete dbC5all ⟨4, DutyType.attester⟩
      goodReachable_dbC5all).2.1 rfl).2.2.2.1,
   ((c5_eviction_complete dbC5all ⟨100, DutyType.proposer⟩
      goodReachable_dbC5all).1 rfl).2.1,
   ((c5_eviction_complete dbC5all ⟨9, DutyType.aggregator⟩
      goodReachable_dbC5all).2.2.1 rfl).2.1 ⟨9, ⟨9, 0⟩⟩ rfl,
   ((c5_eviction_complete dbC5all ⟨9, DutyType.aggregator⟩
      goodReachable_dbC5all).2.2.1 rfl).2.2.1,
   ((c5_eviction_complete dbC5all ⟨11, DutyType.syncContribution⟩
      goodReachable_dbC5all).2.2.2 rfl).2.1 ⟨11, 0, 255⟩ rfl,
   ((c5_eviction_complete dbC5all ⟨11, DutyType.syncContribution⟩
      goodReachable_dbC5all).2.2.2 rfl).2.2.1⟩

/-- C6: a resolver pass keeps exactly the non-cancelled pending waiters
whose key is absent, in order; it appends exactly one write per matched
non-cancelled waiter to the delivery log; and in any reachable state no
channel id has ever received more than one write. -/
theorem c6_resolver_exact_and_at_most_once :
    (∀ db : MemDB,
       (resolveProQueries db).proQueries =
         db.proQueries.filter
           (fun q => !q.cancel && (db.proDuties q.key).isNone) ∧
       (resolveProQueries db).proDeliveries =
         db.proDeliveries ++ db.proQueries.filterMap
           (fun q => if q.cancel then none
             else (db.proDuties q.key).map fun v => (q.id, v))) ∧
    (∀ db : MemDB,
       (resolveAttQueries db).attQueries =
         db.attQueries.filter
           (fun q => !q.cancel && (db.attDuties q.key).isNone) ∧
       (resolveAttQueries db).attDeliveries =
         db.attDeliveries ++ db.attQueries.filterMap
           (fun q => if q.cancel then none
             else (db.attDuties q.key).map fun v => (q.id, v))) ∧
    (∀ db : MemDB, Reachable db → ∀ id : Nat,
       (db.proDeliveries.map Prod.fst).count id ≤ 1 ∧
       (db.attDeliveries.map Prod.fst).count id ≤ 1 ∧
       (db.aggDeliveries.map Prod.fst).count id ≤ 1 ∧
       (db.contribDeliveries.map Prod.fst).count id ≤ 1) := by
  refine ⟨?_, ?_, ?_⟩
  · intro db
    exact ⟨resolveList_fst db.proDuties db.proQueries,
      congrArg (fun l => db.proDeliveries ++ l)
        (resolveList_snd db.proDuties db.proQueries)⟩
  · intro db
    exact ⟨resolveList_fst db.attDuties db.attQueries,
      congrArg (fun l => db.attDeliveries ++ l)
        (resolveList_snd db.attDuties db.attQueries)⟩
  · intro db hr id
    have hinv := reachable_inv hr
    exact ⟨List.nodup_iff_count_le_one.mp hinv.2.1.2.2.2.1 id,
      List.nodup_iff_count_le_one.mp hinv.1.2.2.2.1 id,
      List.nodup_iff_count_le_one.mp hinv.2.2.1.2.2.2.1 id,
      List.nodup_iff_count_le_one.mp hinv.2.2.2.1.2.2.2.1 id⟩

def dbC6 : MemDB :=
  applyEvent dbC1
    (.store ⟨100, DutyType.proposer⟩ [(0, .proposal ⟨100, 42⟩)] true [])

theorem reachable_dbC6 : Reachable dbC6 :=
  Reachable.step dbC1
    (.store ⟨100, DutyType.proposer⟩ [(0, .proposal ⟨100, 42⟩)] true [])
    (Reachable.step initDB (.awaitPro 100) Reachable.init)

theorem c6_witness :
    (dbC6.proDeliveries.map Prod.fst).count 0 = 1 ∧
    (dbC6.proDeliveries.map Prod.fst).count 0 ≤ 1 ∧
    (resolveProQueries dbC6).proQueries =
      dbC6.proQueries.filter
        (fun q => !q.cancel && (dbC6.proDuties q.key).isNone) :=
  ⟨by decide,
   (c6_resolver_exact_and_at_most_once.2.2 dbC6 reachable_dbC6 0).1,
   (c6_resolver_exact_and_at_most_once.1 dbC6).1⟩

/-- C7 (amended): after shutdown the shutdown branch of the final select is
always ready, and a wait whose response channel holds no delivery (with a
live context) can only return the shutdown error; when a delivery is
buffered, the select may return either it or the shutdown error. -/
theorem c7_shutdown_amended {ν : Type} (log : List (Nat × ν)) (id : Nat) :
    selectReady log true false id AwaitOutcome.shutdownErr ∧
    ((∀ v, (id, v) ∉ log) →
       ∀ o, selectReady log true false id o →
         o = AwaitOutcome.shutdownErr) := by
  constructor
  · rfl
  · intro hno o ho
    cases o with
    | shutdownErr => rfl
    | ctxDone => exact Bool.noConfusion ho
    | delivered v => exact absurd ho (hno v)

def dbC7 : MemDB :=
  applyEvent (applyEvent (applyEvent initDB
    (.store ⟨100, DutyType.proposer⟩ [(0, .proposal ⟨100, 7⟩)] true []))
    .shutdownEv) (.awaitPro 100)

/-- C7 counterexample: in a reachable post-shutdown state with the payload
already delivered to the response channel, the select may return the payload
rather than the shutdown error, so an `Await*` call made after shutdown is
not forced to return shutdown when a matching payload is present. -/
theorem c7_counterexample :
    Reachable dbC7 ∧ dbC7.shutdownClosed = true ∧
    selectReady dbC7.proDeliveries dbC7.shutdownClosed false 0
      (AwaitOutcome.delivered ⟨100, 7⟩) ∧
    AwaitOutcome.delivered (⟨100, 7⟩ : VersionedProposal) ≠
      AwaitOutcome.shutdownErr := by
  refine ⟨?_, by decide,
    show (0, (⟨100, 7⟩ : VersionedProposal)) ∈ dbC7.proDeliveries by decide,
    by decide⟩
  exact Reachable.step _ _ (Reachable.step _ _
    (Reachable.step _ _ Reachable.init))

theorem c7_witness :
    selectReady ([] : List (Nat × VersionedProposal)) true false 0
      AwaitOutcome.shutdownErr ∧
    (∀ o, selectReady ([] : List (Nat × VersionedProposal)) true false 0 o →
      o = AwaitOutcome.shutdownErr) :=
  ⟨(c7_shutdown_amended ([] : List (Nat × VersionedProposal)) 0).1,
   fun o ho =>
     (c7_shutdown_amended ([] : List (Nat × VersionedProposal)) 0).2
       (by simp) o ho⟩

/-- C8: in every reachable state, an aggregator store never returns the
clashing-data-root error; a repeat store at an existing key takes the
overwrite path, because a stored entry's data root always equals the root
component of its key. -/
theorem c8_agg_clash_unreachable (db : MemDB) (hr : Reachable db)
    (u : UnsignedData) :
    (storeAggAttestation db u).2 ≠ some DBErr.clashingDataRoot ∧
    (∀ a : VersionedAggregatedAttestation, u = .agg a →
       db.aggDuties ⟨a.data.slot, htrAttData a.data⟩ ≠ none →
       (storeAggAttestation db u).1.aggDuties
         ⟨a.data.slot, htrAttData a.data⟩ = some a) := by
  have hroot : AggRootInv db := (reachable_inv hr).2.2.2.2
  cases u with
  | agg a =>
    rcases hk : db.aggDuties ⟨a.data.slot, htrAttData a.data⟩ with _ | existing
    · constructor
      · rw [show (storeAggAttestation db (.agg a)).2 = none from by
          simp [storeAggAttestation, hk]]
        simp
      · intro a' ha' hn
        injection ha' with h
        subst h
        exact absurd hk hn
    · have hre : htrAttData existing.data = htrAttData a.data :=
        hroot ⟨a.data.slot, htrAttData a.data⟩ existing hk
      constructor
      · rw [show (storeAggAttestation db (.agg a)).2 = none from by
          simp [storeAggAttestation, hk, hre]]
        simp
      · intro a' ha' hn
        injection ha' with h
        subst h
        rw [show (storeAggAttestation db (.agg a)).1 =
            { db with aggDuties :=
                Map.insert db.aggDuties ⟨a.data.slot, htrAttData a.data⟩ a }
            from by simp [storeAggAttestation, hk, hre]]
        exact Map.insert_same _ _ _
  | attestation a =>
    exact ⟨by rw [show (storeAggAttestation db (.attestation a)).2 =
        some DBErr.invalidUnsignedAggregatedAttestation from rfl]; simp,
      fun a' ha' hn => UnsignedData.noConfusion ha'⟩
  | proposal p =>
    exact ⟨by rw [show (storeAggAttestation db (.proposal p)).2 =
        some DBErr.invalidUnsignedAggregatedAttestation from rfl]; simp,
      fun a' ha' hn => UnsignedData.noConfusion ha'⟩
  | contrib c =>
    exact ⟨by rw [show (storeAggAttestation db (.contrib c)).2 =
        some DBErr.invalidUnsignedAggregatedAttestation from rfl]; simp,
      fun a' ha' hn => UnsignedData.noConfusion ha'⟩

def dbC8 : MemDB :=
  applyEvent initDB
    (.store ⟨9, DutyType.aggregator⟩ [(0, .agg aggA1)] true [])

theorem reachable_dbC8 : Reachable dbC8 :=
  Reachable.step initDB
    (.store ⟨9, DutyType.aggregator⟩ [(0, .agg aggA1)] true []) Reachable.init

theorem c8_witness :
    (storeAggAttestation dbC8 (.agg aggA2)).2 ≠
      some DBErr.clashingDataRoot ∧
    (storeAggAttestation dbC8 (.agg aggA2)).1.aggDuties ⟨9, ⟨9, 0⟩⟩ =
      some aggA2 :=
  ⟨(c8_agg_clash_unreachable dbC8 reachable_dbC8 (.agg aggA2)).1,
   (c8_agg_clash_unreachable dbC8 reachable_dbC8 (.agg aggA2)).2 aggA2 rfl
     (by decide)⟩

/-- C9: a failing attester store is not atomic: a clashing-data error is
returned only after the new pubkey entry was already inserted and indexed,
and in a multi-validator batch the mappings stored by earlier iterations
persist after the error. -/
theorem c9_attester_store_not_atomic :
    (dutyStore initDB ⟨4, DutyType.attester⟩ [(7, .attestation attA)] true
      []).2 = none ∧
    (storeAttestation dbC5 8 (.attestation ⟨⟨4, 99⟩, ⟨4, 3, 2⟩⟩)).2 =
      some (DBErr.clashingAttestationData ⟨4, 3⟩) ∧
    (storeAttestation dbC5 8
        (.attestation ⟨⟨4, 99⟩, ⟨4, 3, 2⟩⟩)).1.attPubKeys ⟨4, 3, 2⟩ =
      some 8 ∧
    (⟨4, 3, 2⟩ : PkKey) ∈ (storeAttestation dbC5 8
        (.attestation ⟨⟨4, 99⟩, ⟨4, 3, 2⟩⟩)).1.attKeysBySlot 4 ∧
    (dutyStore dbC5 ⟨4, DutyType.attester⟩
        [(9, .attestation ⟨⟨4, 10⟩, ⟨4, 3, 5⟩⟩),
         (8, .attestation ⟨⟨4, 99⟩, ⟨4, 3, 2⟩⟩)] true []).2 =
      some (DBErr.clashingAttestationData ⟨4, 3⟩) ∧
    (dutyStore dbC5 ⟨4, DutyType.attester⟩
        [(9, .attestation ⟨⟨4, 10⟩, ⟨4, 3, 5⟩⟩),
         (8, .attestation ⟨⟨4, 99⟩, ⟨4, 3, 2⟩⟩)] true []).1.attPubKeys
        ⟨4, 3, 5⟩ = some 9 ∧
    (dutyStore dbC5 ⟨4, DutyType.attester⟩
        [(9, .attestation ⟨⟨4, 10⟩, ⟨4, 3, 5⟩⟩),
         (8, .attestation ⟨⟨4, 99⟩, ⟨4, 3, 2⟩⟩)] true []).1.attPubKeys
        ⟨4, 0, 5⟩ = some 9 := by
  exact ⟨by decide, by decide, by decide, by decide, by decide, by decide,
    by decide⟩

/-- C10: in every state reachable with coherent attester payloads, the
slot-to-keys record for each slot lists, exactly once each, exactly the
stored pubkey keys of that slot, and every stored attestation template is
reachable from the record of its own slot. -/
theorem c10_attester_slot_index_coherence (db : MemDB)
    (hg : GoodReachable db) :
    (∀ s : Nat, (db.attKeysBySlot s).Nodup) ∧
    (∀ (s : Nat) (k : PkKey),
       k ∈ db.attKeysBySlot s ↔ db.attPubKeys k ≠ none ∧ k.slot = s) ∧
    (∀ ak : AttKey, db.attDuties ak ≠ none →
       ∃ v, (⟨ak.slot, ak.commIdx, v⟩ : PkKey) ∈
         db.attKeysBySlot ak.slot) := by
  obtain ⟨h1, h2, h3, h4⟩ := goodReachable_attInv hg
  refine ⟨h3, ?_, ?_⟩
  · intro s k
    constructor
    · intro hk
      exact ⟨(h2 s k hk).2, (h2 s k hk).1⟩
    · rintro ⟨hn, hs⟩
      have hm := h1 k hn
      rw [hs] at hm
      exact hm
  · intro ak hak
    rcases h4 ak hak with ⟨v, hv⟩
    exact ⟨v, h1 ⟨ak.slot, ak.commIdx, v⟩ hv⟩

theorem c10_witness :
    (dbC5.attKeysBySlot 4).Nodup ∧
    ((⟨4, 3, 1⟩ : PkKey) ∈ dbC5.attKeysBySlot 4 ↔
      dbC5.attPubKeys ⟨4, 3, 1⟩ ≠ none ∧ (⟨4, 3, 1⟩ : PkKey).slot = 4) ∧
    (⟨4, 3, 1⟩ : PkKey) ∈ dbC5.attKeysBySlot 4 :=
  ⟨(c10_attester_slot_index_coherence dbC5 goodReachable_dbC5).1 4,
   (c10_attester_slot_index_coherence dbC5 goodReachable_dbC5).2.1 4
     ⟨4, 3, 1⟩,
   by decide⟩

end DutyDB
